import Mathlib

/-!
# graphql-go-upload: the multipart request rewriter

A shallow embedding of `middleware.go` (`Handler`, `isMiddlewareSupported`,
`validateRequest`, `findFields`) and of `scalar.go` (`Upload`,
`ImplementsGraphQLType`, `UnmarshalGraphQL`).

Conventions of the embedding.

* A Go `interface{}` value of the operations tree is a `Value`.  The constructors
  are the dynamic types that `encoding/json` stores into an `interface{}`
  (`nil`, `bool`, `float64`, `string`, `[]interface{}`, `map[string]interface{}`)
  together with the one pointer type the package itself stores, `*Upload`.
* A Go map is an association list read by first match; `m[k]` on an absent key is
  the zero value (`nil`).
* Go maps and slices are references.  The operations tree built by `json.Unmarshal`
  shares no node, so a reference to a map inside it is the list of keys that leads
  to it from the root, and a write through the reference is a write at that
  address.
* A Go function returns normally, returns a non-nil `error`, or panics: `Result`.
* The standard library (multipart parsing, JSON decoding and encoding, MIME
  parsing, content sniffing, temporary files) is the environment `Env`.
-/

namespace GraphqlUpload

/-! ## Data model -/

/-- Contents of a file or of a request body, `[]byte`. -/
abbrev Bytes := List Nat

/-- The struct `Upload` of `scalar.go`. -/
structure Upload where
  Filename : String
  MimeType : String
  Filepath : String
  deriving DecidableEq, Repr

/-- A dynamically typed value of the operations tree (`interface{}`). -/
inductive Value where
  /-- The nil interface, also the decoding of JSON `null`. -/
  | null
  /-- A Go `bool`. -/
  | bool (b : Bool)
  /-- A finite Go `float64` (JSON has no other number), kept as its bit pattern;
  the program never computes with it. -/
  | number (bits : Nat)
  /-- A Go `string`. -/
  | string (s : String)
  /-- A Go `[]interface{}`. -/
  | array (xs : List Value)
  /-- A Go `map[string]interface{}`. -/
  | object (kvs : List (String × Value))
  /-- A Go `*Upload`. -/
  | upload (u : Upload)

/-- The type `map[string]interface{}`. -/
abbrev Obj := List (String × Value)

/-- The runtime panics the program can raise. -/
inductive Panic where
  /-- A failed type assertion `x.(T)` without the comma-ok form. -/
  | typeAssertion
  /-- An index expression outside the bounds of a slice. -/
  | indexOutOfRange
  /-- An assignment to an entry of a nil map. -/
  | nilMap
  deriving DecidableEq, Repr

/-- How a Go call ends: normal return, a non-nil `error`, or a panic. -/
inductive Result (α : Type) where
  | ok (a : α)
  | error (msg : String)
  | panic (p : Panic)

/-- Reading a Go map with the comma-ok form: the first binding of the key. -/
def mapGet : Obj → String → Option Value
  | [], _ => none
  | (k, v) :: rest, key => if k = key then some v else mapGet rest key

/-- The index expression `m[k]`: the zero value `nil` when the key is absent. -/
def mapIndex (m : Obj) (k : String) : Value :=
  (mapGet m k).getD Value.null

/-- The assignment `m[k] = v`. -/
def mapSet : Obj → String → Value → Obj
  | [], key, v => [(key, v)]
  | (k, x) :: rest, key, v =>
    if k = key then (key, v) :: rest else (k, x) :: mapSet rest key v

/-- Rewrites the value bound to an existing key, leaving the other bindings. -/
def mapModify : Obj → String → (Value → Value) → Obj
  | [], _, _ => []
  | (k, x) :: rest, key, g =>
    if k = key then (k, g x) :: rest else (k, x) :: mapModify rest key g

/-- A write through a map reference: applies `f` to the map stored at the address
`addr` (a list of keys from the root). -/
def modifyAt : List String → (Obj → Obj) → Obj → Obj
  | [], f, m => f m
  | k :: ks, f, m =>
    mapModify m k (fun v =>
      match v with
      | Value.object c => Value.object (modifyAt ks f c)
      | other => other)

/-- The type `url.Values` and `http.Header`: a key with its list of values. -/
abbrev Values := List (String × List String)

/-- The method `Get` of `url.Values` and `http.Header`: the first value of the key,
or the empty string. -/
def Values.Get : Values → String → String
  | [], _ => ""
  | (k, vs) :: rest, key =>
    if k = key then
      match vs with
      | [] => ""
      | v :: _ => v
    else Values.Get rest key

/-- The method `Set` of `http.Header`: the key now has the single value. -/
def Values.Set : Values → String → String → Values
  | [], key, v => [(key, [v])]
  | (k, vs) :: rest, key, v =>
    if k = key then (key, [v]) :: rest else (k, vs) :: Values.Set rest key v

/-- A file part of the parsed multipart form: the `*multipart.FileHeader` with its
`Filename` and `Size`, the error of its `Open` if it has one, and what
`ioutil.ReadAll` gives after `Seek(0, 0)`. -/
structure FilePart where
  Filename : String
  Size : Nat
  openError : Option String
  content : Except String Bytes

/-- The struct `graphqlParams`, with its JSON keys `variables`, `query`,
`operations` and `map`. -/
structure graphqlParams where
  Variables : Value
  Query : Value
  Operations : Obj
  Map : List (String × List String)

/-- A request body, as what is still to be read from it: bytes, the text of a
multipart form with the given fields and file parts, or the JSON text that
`json.Marshal` produces for a `graphqlParams`. -/
inductive Body where
  | received (data : Bytes)
  | multipart (fields : Values) (files : List (String × FilePart))
  | json (p : graphqlParams)

/-- The request `*http.Request`: method, header, the form values and file parts
that `ParseMultipartForm` has stored in it (none before the call), and the
body. -/
structure Request where
  Method : String
  Header : Values
  PostForm : Values
  MultipartFiles : List (String × FilePart)
  Body : Body

/-- What a call of `r.ParseMultipartForm` leaves: the form values and file parts
now stored in the request, what is left to read of the body, and the temporary
files in which the multipart reader stored the file parts that did not fit the
memory budget. -/
structure Parsed where
  PostForm : Values
  MultipartFiles : List (String × FilePart)
  Body : Body
  spilled : List String

/-- The `http.ResponseWriter`: its header map and the reply made by `http.Error`,
if any, as message and status code. -/
structure ResponseWriter where
  Header : Values
  errorReply : Option (String × Nat)

/-- The file operations made so far: the temporary files in which
`ParseMultipartForm` stored file parts, the keys passed to `r.FormFile`, the
temporary files created by `ioutil.TempFile` and what was written to them. -/
structure World where
  spilled : List String
  formFileCalls : List String
  created : List String
  written : List (String × Bytes)

/-! ## The standard library -/

/-- The library functions the program calls, as far as the program can observe
them.  The list returned by `jsonUnmarshalMap` is in the order in which the
`range` loop of one execution visits the decoded map; Go leaves that order
unspecified, and every property below holds for each order. -/
structure Env where
  /-- The first result of `mime.ParseMediaType`, the empty string on failure. -/
  parseMediaType : String → String
  /-- The call `r.ParseMultipartForm(maxMemory)` on a request. -/
  parseMultipartForm : Nat → Request → Parsed
  /-- The call `json.Unmarshal` into an empty `map[string]interface{}`: the
  entries of the map afterwards; `none` is a non-nil error. -/
  jsonUnmarshalOperations : String → Option Obj
  /-- Whether the text is the JSON value `null`, for which `json.Unmarshal`
  returns no error and sets the map to nil: a map without entries, an
  assignment to which panics. -/
  jsonNull : String → Bool
  /-- The call `json.Unmarshal` into an empty `map[string][]string`. -/
  jsonUnmarshalMap : String → Option (List (String × List String))
  /-- The function `strings.ToLower`. -/
  toLower : String → String
  /-- The call `ioutil.TempFile(os.TempDir(), pattern)`: the name of the file
  created. -/
  tempFile : World → String → Except String String
  /-- The call `f.Write(data)` on the temporary file of the given name. -/
  write : String → Bytes → Except String Unit
  /-- The function `http.DetectContentType`. -/
  detectContentType : Bytes → String
  /-- The text of the error of `strconv.Atoi` for the given input. -/
  atoiErrorText : String → String

/-- Splits a list of characters at every occurrence of the separator; the result
always has at least one piece. -/
def splitChars (sep : Char) : List Char → List (List Char)
  | [] => [[]]
  | c :: cs =>
    if c = sep then [] :: splitChars sep cs
    else
      match splitChars sep cs with
      | [] => [[c]]
      | seg :: rest => (c :: seg) :: rest

/-- The call `strings.Split(s, ".")`. -/
def stringsSplit (s : String) : List String :=
  (splitChars '.' s.data).map String.mk

/-- Scans a path backwards for `filepath.Ext`: `acc` holds the characters already
passed, in path order. -/
def extScan : List Char → List Char → String
  | [], _ => ""
  | c :: cs, acc =>
    if c = '/' then ""
    else if c = '.' then String.mk ('.' :: acc)
    else extScan cs (c :: acc)

/-- The function `filepath.Ext`: the suffix beginning at the final dot of the
last path element, or the empty string. -/
def filepathExt (path : String) : String :=
  extScan path.data.reverse []

/-- The decimal value of a digit character, for `strconv.Atoi`. -/
def digitVal (c : Char) : Option Nat :=
  if 48 ≤ c.toNat ∧ c.toNat ≤ 57 then some (c.toNat - 48) else none

/-- Reads a run of decimal digits onto an accumulator. -/
def parseDigits : List Char → Nat → Option Nat
  | [], acc => some acc
  | c :: cs, acc =>
    match digitVal c with
    | none => none
    | some d => parseDigits cs (acc * 10 + d)

/-- The function `strconv.Atoi` with a 64-bit `int`: an optional sign, then one or
more decimal digits, the value within the range of `int64`; `none` is a non-nil
error. -/
def atoi (s : String) : Option Int :=
  match s.data with
  | [] => none
  | c :: cs =>
    if c = '-' then
      if cs = [] then none
      else
        match parseDigits cs 0 with
        | none => none
        | some n => if n ≤ 2 ^ 63 then some (-(n : Int)) else none
    else if c = '+' then
      if cs = [] then none
      else
        match parseDigits cs 0 with
        | none => none
        | some n => if n < 2 ^ 63 then some (n : Int) else none
    else
      match parseDigits (c :: cs) 0 with
      | none => none
      | some n => if n < 2 ^ 63 then some (n : Int) else none

/-- The argument `(1 << 20) * 64` of `ParseMultipartForm`. -/
def multipartMemory : Nat := (1 <<< 20) * 64

/-- The method `r.ParseMultipartForm`: the request with the parsed form and the
body read, and the files the multipart reader stored on disk.  The method and the
header of the request are not written. -/
def Request.ParseMultipartForm (r : Request) (env : Env) (maxMemory : Nat) (world : World) :
    Request × World :=
  let p := env.parseMultipartForm maxMemory r
  ({ r with PostForm := p.PostForm, MultipartFiles := p.MultipartFiles, Body := p.Body },
    { world with spilled := world.spilled ++ p.spilled })

/-- The method `r.PostFormValue` on a parsed request: the first form value of the
key, or the empty string. -/
def Request.PostFormValue (r : Request) (key : String) : String :=
  Values.Get r.PostForm key

/-- Looks a key up among the file parts. -/
def lookupFile : List (String × FilePart) → String → Option FilePart
  | [], _ => none
  | (k, p) :: rest, key => if k = key then some p else lookupFile rest key

/-- The method `r.FormFile`: the first file part of the key, opened, or the error
`http.ErrMissingFile`. -/
def Request.FormFile (r : Request) (key : String) : Except String FilePart :=
  match lookupFile r.MultipartFiles key with
  | some p =>
    match p.openError with
    | some err => Except.error err
    | none => Except.ok p
  | none => Except.error "http: no such file"

/-! ## middleware.go -/

/-- The map returned by `findFields`: a reference into the operations tree, as
the address of the map and its contents. -/
structure Fields where
  addr : List String
  val : Obj

/-- The loop of `findFields` over the segments still to visit; `addr` is the
address of `operations` in the tree.

The first branch of the source, `operations.([]map[string]interface{})`, needs a
value of dynamic type `[]map[string]interface{}`.  No `Value` has that type (a
JSON array decodes to `[]interface{}`), so the assertion fails at every node
and the loop index is only ever used as `entryPaths[i]`; an array therefore takes
the last arm here, like every value that is not a map. -/
def findFieldsLoop : Value → List String → List String → Value × List String
  | operations, addr, [] => (operations, addr)
  | operations, addr, seg :: rest =>
    match operations with
    | Value.object op =>
      if seg ≠ "attachments" then
        findFieldsLoop (mapIndex op seg) (addr ++ [seg]) rest
      else findFieldsLoop operations addr rest
    | _ => findFieldsLoop operations addr rest

/-- The function `findFields`.  The final `operations.(map[string]interface{})`
has no comma-ok form and panics on every value that is not a map. -/
def findFields (operations : Value) (entryPaths : List String) : Result Fields :=
  match findFieldsLoop operations [] entryPaths with
  | (Value.object m, addr) => Result.ok { addr := addr, val := m }
  | _ => Result.panic Panic.typeAssertion

/-- The comparison `&m == nil` of `validateRequest`: the address of a local
variable is never nil. -/
def addressIsNil (_m : String) : Bool := false

/-- The assignment `operations[entryPaths[0]].(map[string]interface{})[entryPaths[1]] = value`
of the plain-value branch.  It panics when `operations[entryPaths[0]]` is not a map
and when the path has a single segment; the map operand is evaluated first. -/
def assignPlain (operations : Obj) (entryPaths : List String) (value : String) :
    Result Obj :=
  match entryPaths with
  | [] => Result.panic Panic.indexOutOfRange
  | e0 :: tail =>
    match mapIndex operations e0 with
    | Value.object m =>
      match tail with
      | [] => Result.panic Panic.indexOutOfRange
      | e1 :: _ =>
        Result.ok (mapSet operations e0 (Value.object (mapSet m e1 (Value.string value))))
    | _ => Result.panic Panic.typeAssertion

/-- The block `if op, ok := params.Fields.(map[string]interface{}); ok` of the
Upload branch: the write of the Upload into the tree.  `params.Fields` always
holds a map, so the block is always entered.  `nilRoot` tells that the root map
is nil; `op[arrKey] = upload` then panics when `op` is the root. -/
def assignUpload (env : Env) (nilRoot : Bool) (operations : Obj) (fields : Fields)
    (entryPaths : List String) (upload : Upload) : Result Obj :=
  -- i := len(entryPaths) - 1; arrKey := entryPaths[i]; last := entryPaths[i-1]
  match entryPaths.reverse with
  | [] => Result.panic Panic.indexOutOfRange
  | [_] => Result.panic Panic.indexOutOfRange
  | arrKey :: last :: _ =>
    match mapIndex fields.val last with
    | Value.array arr =>
      match atoi arrKey with
      | none =>
        Result.error ("error converting final upload key to int: " ++ env.atoiErrorText arrKey)
      | some key =>
        if 0 ≤ key ∧ key < (arr.length : Int) then
          Result.ok (modifyAt fields.addr
            (fun op => mapSet op last (Value.array (arr.set key.toNat (Value.upload upload))))
            operations)
        else Result.panic Panic.indexOutOfRange
    | _ =>
      if nilRoot ∧ fields.addr = [] then Result.panic Panic.nilMap
      else
        Result.ok
          (modifyAt fields.addr (fun op => mapSet op arrKey (Value.upload upload)) operations)

/-- The body of the inner `for` loop of `validateRequest` for one path of the
map entry `idx`: the new operations tree, or the error or panic that ends the
function, and the file operations made. -/
def processEntry (env : Env) (r : Request) (nilRoot : Bool) (idx entry : String)
    (operations : Obj) (world : World) : Result Obj × World :=
  let entryPaths := stringsSplit entry
  match findFields (Value.object operations) entryPaths.dropLast with
  | Result.panic p => (Result.panic p, world)
  | Result.error e => (Result.error e, world)
  | Result.ok fields =>
    let value := Values.Get r.PostForm idx
    if value ≠ "" then
      (assignPlain operations (stringsSplit entry) value, world)
    else
      let world1 := { world with formFileCalls := world.formFileCalls ++ [idx] }
      match r.FormFile idx with
      | Except.error err =>
        (Result.error ("could not access multipart file: " ++ err), world1)
      | Except.ok handle =>
        match handle.content with
        | Except.error err =>
          (Result.error ("could not read multipart file: " ++ err), world1)
        | Except.ok data =>
          let extension := env.toLower (filepathExt handle.Filename)
          let filename := "graphqlupload-*" ++ extension
          match env.tempFile world1 filename with
          | Except.error err =>
            (Result.error ("unable to create temporary file: " ++ err), world1)
          | Except.ok fname =>
            let world2 := { world1 with created := world1.created ++ [fname] }
            match env.write fname data with
            | Except.error err =>
              (Result.error ("could not write temporary file: " ++ err), world2)
            | Except.ok _ =>
              let world3 := { world2 with written := world2.written ++ [(fname, data)] }
              let upload : Upload :=
                { MimeType := env.detectContentType data
                  Filename := handle.Filename
                  Filepath := fname }
              (assignUpload env nilRoot operations fields entryPaths upload, world3)

/-- The inner loop `for _, entry := range mapEntry`. -/
def processPaths (env : Env) (r : Request) (nilRoot : Bool) (idx : String) :
    List String → Obj → World → Result Obj × World
  | [], operations, world => (Result.ok operations, world)
  | entry :: rest, operations, world =>
    match processEntry env r nilRoot idx entry operations world with
    | (Result.ok operations1, world1) => processPaths env r nilRoot idx rest operations1 world1
    | stop => stop

/-- The outer loop `for idx, mapEntry := range mapEntries`. -/
def processMap (env : Env) (r : Request) (nilRoot : Bool) :
    List (String × List String) → Obj → World → Result Obj × World
  | [], operations, world => (Result.ok operations, world)
  | (idx, mapEntry) :: rest, operations, world =>
    match processPaths env r nilRoot idx mapEntry operations world with
    | (Result.ok operations1, world1) => processMap env r nilRoot rest operations1 world1
    | stop => stop

/-- The call `json.Marshal(graphqlParams)`.  Its error cases are a value of a
channel, function or complex type, a non-finite float, a reference cycle and a
failing `Marshaler`; a `graphqlParams` built from `Value`s has none of them, so
the call returns the encoded text. -/
def jsonMarshal (p : graphqlParams) : Except String Body :=
  Except.ok (Body.json p)

/-- The state in which a call of `validateRequest` ends. -/
structure Exec where
  result : Result Unit
  w : ResponseWriter
  r : Request
  world : World

/-- The function `validateRequest`.  Its first statement parses the multipart
form and discards the error of the parse; the statements after it read the
parsed request. -/
def validateRequest (env : Env) (w : ResponseWriter) (r0 : Request) (world0 : World) : Exec :=
  -- r.ParseMultipartForm((1 << 20) * 64)
  match r0.ParseMultipartForm env multipartMemory world0 with
  | (r, world) =>
    let m := r.PostFormValue "map"
    if addressIsNil m then
      { result := Result.error "missing map field parameter", w := w, r := r, world := world }
    else
      let o := r.PostFormValue "operations"
      if addressIsNil o then
        { result := Result.error "missing operations field parameter", w := w, r := r,
          world := world }
      else
        match env.jsonUnmarshalOperations o with
        | none =>
          { result := Result.error "cannot unmarshal operations: malformed query", w := w,
            r := r, world := world }
        | some operations =>
          match env.jsonUnmarshalMap m with
          | none =>
            { result := Result.error "cannot unmarshal map entries: malformed query", w := w,
              r := r, world := world }
          | some mapEntries =>
            match processMap env r (env.jsonNull o) mapEntries operations world with
            | (Result.error e, world1) =>
              { result := Result.error e, w := w, r := r, world := world1 }
            | (Result.panic p, world1) =>
              { result := Result.panic p, w := w, r := r, world := world1 }
            | (Result.ok operations1, world1) =>
              let params : graphqlParams :=
                { Variables := mapIndex operations1 "variables"
                  Query := mapIndex operations1 "query"
                  Operations := operations1
                  Map := mapEntries }
              match jsonMarshal params with
              | Except.ok body =>
                -- r.Body = ...; w.Header().Set("Content-Type", "application/json")
                { result := Result.ok ()
                  w := { w with Header := Values.Set w.Header "Content-Type" "application/json" }
                  r := { r with Body := body }
                  world := world1 }
              | Except.error _ =>
                { result := Result.ok (), w := w, r := r, world := world1 }

/-- The function `isMiddlewareSupported`. -/
def isMiddlewareSupported (env : Env) (r : Request) : Bool :=
  if r.Method ≠ "POST" then false
  else
    let contentType := Values.Get r.Header "Content-Type"
    let mediaType := env.parseMediaType contentType
    if contentType = "" ∨ mediaType ≠ "multipart/form-data" then false
    else true

/-- The state in which one request leaves the handler built by `Handler`: the
arguments of the call `next.ServeHTTP(w, r)` when it is made, the response
writer, the file operations, and the panic that escaped, if any. -/
structure Served where
  next : Option (ResponseWriter × Request)
  w : ResponseWriter
  world : World
  panicked : Option Panic

/-- The handler returned by `Handler(next)`, up to the call of `next`.  The
mutex `l` only serialises the calls and is left out. -/
def Handler (env : Env) (w : ResponseWriter) (r : Request) (world : World) : Served :=
  if !isMiddlewareSupported env r then
    { next := some (w, r), w := w, world := world, panicked := none }
  else
    let e := validateRequest env w r world
    match e.result with
    | Result.error msg =>
      -- http.Error(w, err.Error(), http.StatusBadRequest)
      { next := none, w := { e.w with errorReply := some (msg, 400) }, world := e.world,
        panicked := none }
    | Result.panic p =>
      { next := none, w := e.w, world := e.world, panicked := some p }
    | Result.ok _ =>
      { next := some (e.w, e.r), w := e.w, world := e.world, panicked := none }

/-! ## scalar.go -/

/-- The method `ImplementsGraphQLType`. -/
def Upload.ImplementsGraphQLType (_u : Upload) (name : String) : Bool :=
  decide (name = "Upload")

/-- The call `json.Marshal(input)` on a `map[string]interface{}` of `Value`s: no
value in it can make the encoder fail, and the encoded object has the keys of the
map in sorted order.  The text is represented by the map it encodes. -/
def jsonMarshalInput (input : Obj) : Except String Obj :=
  Except.ok input

/-- Whether the character `c` of an object key matches the character `t` of a
field name: the same character, or the upper-case form of the lower-case ASCII
letter `t`. -/
def foldEqChar (t c : Char) : Bool :=
  decide (c = t) || decide (c.toNat + 32 = t.toNat)

/-- Whether a key matches a field name character by character. -/
def foldEqChars : List Char → List Char → Bool
  | [], [] => true
  | t :: ts, c :: cs => foldEqChar t c && foldEqChars ts cs
  | _, _ => false

/-- Whether `encoding/json` stores the member `key` of an object into the struct
field named `tag`: an exact match or a case-insensitive one.  The names
`filename`, `mimetype` and `filepath` are lower-case ASCII letters other than `k`
and `s`, for which the case-insensitive match is that of ASCII. -/
def keyMatches (tag key : String) : Bool :=
  foldEqChars tag.data key.data

/-- The decoder of `json.Unmarshal(data, u)` at one member of the object: a JSON
string stored under a key that matches a field sets the field; under such a key
`null` is a no-op and any other value is an `UnmarshalTypeError` that the decoder
records before going on; a key that matches no field is skipped. -/
def decodeMember (u : Upload) (key : String) (v : Value) : Upload :=
  match v with
  | Value.string s =>
    if keyMatches "filename" key then { u with Filename := s }
    else if keyMatches "mimetype" key then { u with MimeType := s }
    else if keyMatches "filepath" key then { u with Filepath := s }
    else u
  | _ => u

/-- The order in which `json.Marshal` sorts the keys of a map: the strings are
compared byte by byte, which on UTF-8 text is character by character. -/
def leChars : List Char → List Char → Bool
  | [], _ => true
  | _ :: _, [] => false
  | a :: as, b :: bs =>
    if a.toNat < b.toNat then true
    else if b.toNat < a.toNat then false
    else leChars as bs

/-- Inserts a key into a sorted list of keys. -/
def insertKey (key : String) : List String → List String
  | [] => [key]
  | k :: ks => if leChars key.data k.data then key :: k :: ks else k :: insertKey key ks

/-- Sorts a list of keys. -/
def sortKeys : List String → List String
  | [] => []
  | k :: ks => insertKey k (sortKeys ks)

/-- The keys of the encoded object in the order of the text: `json.Marshal`
sorts the keys of a map.  A key bound twice in the association list is visited
twice with the same value, which changes nothing. -/
def sortedKeys (m : Obj) : List String :=
  sortKeys (m.map Prod.fst)

/-- The call `json.Unmarshal(data, u)` on the text that encodes the map `m`; its
error is discarded by the caller. -/
def jsonUnmarshalUpload (m : Obj) (u : Upload) : Upload :=
  (sortedKeys m).foldl (fun acc key => decodeMember acc key (mapIndex m key)) u

/-- The method `UnmarshalGraphQL`: the Upload after the call and the returned
error, `none` for nil. -/
def Upload.UnmarshalGraphQL (u : Upload) (input : Value) : Upload × Option String :=
  match input with
  | Value.object m =>
    match jsonMarshalInput m with
    | Except.error _ => (u, none)
    | Except.ok data => (jsonUnmarshalUpload data u, none)
  | _ => (u, some "Cannot unmarshal received type as a Upload type")

/-! ## Vocabulary of the properties -/

/-- Following a list of keys from a map through object-valued fields only: each
key names, in turn, an existing field that holds an object. -/
def descend : Obj → List String → Option Obj
  | m, [] => some m
  | m, k :: ks =>
    match mapGet m k with
    | some (Value.object c) => descend c ks
    | _ => none

/-- The value found at a path of keys below a value, if every key exists. -/
def getPath : Value → List String → Option Value
  | v, [] => some v
  | Value.object m, k :: ks =>
    match mapGet m k with
    | some c => getPath c ks
    | none => none
  | _, _ :: _ => none

/-- Temporary storage works: `ioutil.TempFile` and `Write` return no error. -/
def StorageWorks (env : Env) : Prop :=
  (∀ world pattern, ∃ name, env.tempFile world pattern = Except.ok name) ∧
    ∀ name data, env.write name data = Except.ok ()

/-! ## Concrete requests

The documents below are written as the JSON text a client sends and as the value
`json.Unmarshal` builds from that text. -/

/-- The text `{"query":"mutation","variables":{"file":null}}`. -/
def fileOpsText : String := "\x7b\"query\":\"mutation\",\"variables\":\x7b\"file\":null\x7d\x7d"

/-- The decoding of `fileOpsText`. -/
def fileOps : Obj :=
  [("query", Value.string "mutation"), ("variables", Value.object [("file", Value.null)])]

/-- The text `{"variables":{"attachments":{"file":null}}}`. -/
def nestedOpsText : String :=
  "\x7b\"variables\":\x7b\"attachments\":\x7b\"file\":null\x7d\x7d\x7d"

/-- The decoding of `nestedOpsText`. -/
def nestedOps : Obj :=
  [("variables", Value.object [("attachments", Value.object [("file", Value.null)])])]

/-- The text `{"variables":{"attachments":[{"n":0},{"n":1}]}}`. -/
def attachmentsOpsText : String :=
  "\x7b\"variables\":\x7b\"attachments\":[\x7b\"n\":0\x7d,\x7b\"n\":1\x7d]\x7d\x7d"

/-- The decoding of `attachmentsOpsText`; `4607182418800017408` is the bit
pattern of the `float64` 1. -/
def attachmentsOps : Obj :=
  [("variables", Value.object
    [("attachments", Value.array
      [Value.object [("n", Value.number 0)],
       Value.object [("n", Value.number 4607182418800017408)]])])]

/-- The text `{"variables":{"files":[{"n":0},{"n":1}]}}`. -/
def filesOpsText : String :=
  "\x7b\"variables\":\x7b\"files\":[\x7b\"n\":0\x7d,\x7b\"n\":1\x7d]\x7d\x7d"

/-- The decoding of `filesOpsText`. -/
def filesOps : Obj :=
  [("variables", Value.object
    [("files", Value.array
      [Value.object [("n", Value.number 0)],
       Value.object [("n", Value.number 4607182418800017408)]])])]

/-- The text `{"variables":{"input":[{"file":null},{"file":null}]}}`. -/
def inputListOpsText : String :=
  "\x7b\"variables\":\x7b\"input\":[\x7b\"file\":null\x7d,\x7b\"file\":null\x7d]\x7d\x7d"

/-- The decoding of `inputListOpsText`. -/
def inputListOps : Obj :=
  [("variables", Value.object
    [("input", Value.array
      [Value.object [("file", Value.null)], Value.object [("file", Value.null)]])])]

/-- The text `{"variables":{"input":{"title":null,"year":null}}}`. -/
def inputOpsText : String :=
  "\x7b\"variables\":\x7b\"input\":\x7b\"title\":null,\"year\":null\x7d\x7d\x7d"

/-- The decoding of `inputOpsText`. -/
def inputOps : Obj :=
  [("variables", Value.object
    [("input", Value.object [("title", Value.null), ("year", Value.null)])])]

/-- A finite part of `json.Unmarshal` into a `map[string]interface{}`: the texts
above decode to their values, `null` leaves a map without entries, the empty
string and `not json` are rejected (as is every other text, which no request
below sends). -/
def decodeOperations (text : String) : Option Obj :=
  if text = "null" then some []
  else if text = fileOpsText then some fileOps
  else if text = nestedOpsText then some nestedOps
  else if text = attachmentsOpsText then some attachmentsOps
  else if text = filesOpsText then some filesOps
  else if text = inputListOpsText then some inputListOps
  else if text = inputOpsText then some inputOps
  else none

/-- A finite part of `json.Unmarshal` into a `map[string][]string`: the text
`{"0":["<path>"]}` for the paths used below. -/
def decodeMap (text : String) : Option (List (String × List String)) :=
  if text = "\x7b\"0\":[\"variables.file\"]\x7d" then some [("0", ["variables.file"])]
  else if text = "\x7b\"0\":[\"variables.attachments.file\"]\x7d" then
    some [("0", ["variables.attachments.file"])]
  else if text = "\x7b\"0\":[\"variables.attachments.1\"]\x7d" then
    some [("0", ["variables.attachments.1"])]
  else if text = "\x7b\"0\":[\"variables.files.0\"]\x7d" then
    some [("0", ["variables.files.0"])]
  else if text = "\x7b\"0\":[\"variables.input.1.file\"]\x7d" then
    some [("0", ["variables.input.1.file"])]
  else if text = "\x7b\"0\":[\"variables.missingBranch.file\"]\x7d" then
    some [("0", ["variables.missingBranch.file"])]
  else if text = "\x7b\"0\":[\"variables.input.title\"]\x7d" then
    some [("0", ["variables.input.title"])]
  else if text = "\x7b\"0\":[\"attachments.file\"]\x7d" then
    some [("0", ["attachments.file"])]
  else none

/-- A finite part of `mime.ParseMediaType`. -/
def mediaTypeOf (header : String) : String :=
  if header = "multipart/form-data; boundary=xyz" then "multipart/form-data"
  else if header = "application/json" then "application/json"
  else ""

/-- The temporary files of the multipart reader: a file part larger than the
memory budget is stored on disk. -/
def spillNames (maxMemory : Nat) : List (String × FilePart) → List String
  | [] => []
  | (key, part) :: rest =>
    if maxMemory < part.Size then ("/tmp/multipart-" ++ key) :: spillNames maxMemory rest
    else spillNames maxMemory rest

/-- A part of `ParseMultipartForm`: a multipart body is read to its end and gives
its fields and file parts; any other body is no multipart form and gives none. -/
def parseForm (maxMemory : Nat) (r : Request) : Parsed :=
  match r.Body with
  | Body.multipart fields files =>
    { PostForm := fields, MultipartFiles := files, Body := Body.received [],
      spilled := spillNames maxMemory files }
  | other => { PostForm := [], MultipartFiles := [], Body := other, spilled := [] }

/-- An environment for the concrete requests: storage never fails, the sniffed
type is that of plain text, names are lower-cased over ASCII. -/
def stdlib : Env where
  parseMediaType := mediaTypeOf
  parseMultipartForm := parseForm
  jsonUnmarshalOperations := decodeOperations
  jsonNull := fun text => decide (text = "null")
  jsonUnmarshalMap := decodeMap
  toLower := fun s => String.mk (s.data.map Char.toLower)
  tempFile := fun _ pattern =>
    if pattern = "graphqlupload-*.txt" then Except.ok "/tmp/graphqlupload-271828.txt"
    else Except.ok "/tmp/graphqlupload-271828"
  write := fun _ _ => Except.ok ()
  detectContentType := fun _ => "text/plain; charset=utf-8"
  atoiErrorText := fun s => "strconv.Atoi: parsing \"" ++ s ++ "\": invalid syntax"

/-- The bytes of `hello`. -/
def helloBytes : Bytes := [104, 101, 108, 108, 111]

/-- A file part named `Hello.TXT` that holds `hello`. -/
def helloPart : FilePart where
  Filename := "Hello.TXT"
  Size := 5
  openError := none
  content := Except.ok helloBytes

/-- A file part of one byte more than 64 MiB. -/
def bigPart : FilePart where
  Filename := "big.bin"
  Size := 67108865
  openError := none
  content := Except.ok (List.replicate 67108865 0)

/-- A multipart POST, as received, with the given `operations` and `map` fields,
further plain form fields, and the one file part `0`, `helloPart`. -/
def uploadRequest (operations map : String) (plain : Values) : Request where
  Method := "POST"
  Header := [("Content-Type", ["multipart/form-data; boundary=xyz"])]
  PostForm := []
  MultipartFiles := []
  Body := Body.multipart ([("operations", [operations]), ("map", [map])] ++ plain)
    [("0", helloPart)]

/-- The request `uploadRequest` after `ParseMultipartForm`. -/
def uploadParsed (operations map : String) (plain : Values) : Request where
  Method := "POST"
  Header := [("Content-Type", ["multipart/form-data; boundary=xyz"])]
  PostForm := [("operations", [operations]), ("map", [map])] ++ plain
  MultipartFiles := [("0", helloPart)]
  Body := Body.received []

/-- A multipart POST, as received, with the given form fields and no file part. -/
def formRequest (form : Values) : Request where
  Method := "POST"
  Header := [("Content-Type", ["multipart/form-data; boundary=xyz"])]
  PostForm := []
  MultipartFiles := []
  Body := Body.multipart form []

/-- The request `formRequest` after `ParseMultipartForm`. -/
def formParsed (form : Values) : Request where
  Method := "POST"
  Header := [("Content-Type", ["multipart/form-data; boundary=xyz"])]
  PostForm := form
  MultipartFiles := []
  Body := Body.received []

/-- A multipart POST, as received, whose `operations` field is the text `not json`
and whose file part `0` is `bigPart`. -/
def bigRequest : Request where
  Method := "POST"
  Header := [("Content-Type", ["multipart/form-data; boundary=xyz"])]
  PostForm := []
  MultipartFiles := []
  Body := Body.multipart
    [("operations", ["not json"]), ("map", ["\x7b\"0\":[\"variables.file\"]\x7d"])]
    [("0", bigPart)]

/-- A GET request without header or body. -/
def getRequest : Request where
  Method := "GET"
  Header := []
  PostForm := []
  MultipartFiles := []
  Body := Body.received []

/-- A response writer that has not been written to. -/
def freshWriter : ResponseWriter where
  Header := []
  errorReply := none

/-- No file operation made yet. -/
def freshWorld : World where
  spilled := []
  formFileCalls := []
  created := []
  written := []

/-- The Upload that `stdlib` gives for the file part of `uploadRequest`. -/
def helloUpload : Upload where
  Filename := "Hello.TXT"
  MimeType := "text/plain; charset=utf-8"
  Filepath := "/tmp/graphqlupload-271828.txt"

/-! ## Maps, headers and paths -/

/-- Reading a map after the assignment `m[k] = v`. -/
theorem mapGet_mapSet (m : Obj) (k : String) (v : Value) (k' : String) :
    mapGet (mapSet m k v) k' = if k = k' then some v else mapGet m k' := by
  induction m with
  | nil => simp [mapSet, mapGet]
  | cons kv rest ih =>
    obtain ⟨a, x⟩ := kv
    by_cases h : a = k
    · subst h
      by_cases h2 : a = k' <;> simp [mapSet, mapGet, h2]
    · by_cases h2 : a = k'
      · subst h2
        have h3 : ¬ k = a := fun e => h e.symm
        simp [mapSet, mapGet, h, h3]
      · simp [mapSet, mapGet, h, h2, ih]

/-- Reading a map after the value of one key was rewritten. -/
theorem mapGet_mapModify (m : Obj) (k : String) (g : Value → Value) (k' : String) :
    mapGet (mapModify m k g) k' = if k = k' then (mapGet m k).map g else mapGet m k' := by
  induction m with
  | nil => simp [mapModify, mapGet]
  | cons kv rest ih =>
    obtain ⟨a, x⟩ := kv
    by_cases h : a = k
    · subst h
      by_cases h2 : a = k' <;> simp [mapModify, mapGet, h2]
    · by_cases h2 : a = k'
      · subst h2
        have h3 : ¬ k = a := fun e => h e.symm
        simp [mapModify, mapGet, h, h3]
      · simp [mapModify, mapGet, h, h2, ih]

/-- After `Set`, `Get` returns the value that was set. -/
theorem Values_Get_Set (h : Values) (k v : String) : Values.Get (Values.Set h k v) k = v := by
  induction h with
  | nil => simp [Values.Set, Values.Get]
  | cons kv rest ih =>
    obtain ⟨a, vs⟩ := kv
    by_cases e : a = k
    · simp [Values.Set, Values.Get, e]
    · simp [Values.Set, Values.Get, e, ih]

/-- The method `Get` returns the empty string for a key that has no entry. -/
theorem Values_Get_absent (h : Values) (k : String) (habsent : ∀ vs : List String, (k, vs) ∉ h) :
    Values.Get h k = "" := by
  induction h with
  | nil => rfl
  | cons kv rest ih =>
    obtain ⟨a, vs⟩ := kv
    have hne : ¬ a = k := by
      intro e
      exact habsent vs (by simp [e])
    simp only [Values.Get, hne, if_false]
    exact ih (fun vs hmem => habsent vs (List.mem_cons_of_mem _ hmem))

/-- A path through the address of a write reads the map that was written. -/
theorem getPath_modifyAt_hit (addr : List String) (f : Obj → Obj) :
    ∀ (m parent : Obj) (q : List String), descend m addr = some parent →
      getPath (Value.object (modifyAt addr f m)) (addr ++ q) = getPath (Value.object (f parent)) q := by
  induction addr with
  | nil =>
    intro m parent q hd
    simp [descend] at hd
    simp [modifyAt, hd]
  | cons a as ih =>
    intro m parent q hd
    simp only [descend] at hd
    cases hg : mapGet m a with
    | none => simp [hg] at hd
    | some c =>
      cases c with
      | object c =>
        simp [hg] at hd
        simp [modifyAt, getPath, mapGet_mapModify, hg, ih c parent q hd]
      | _ => simp [hg] at hd

/-- A write that changes one key `k` of the map at `addr` is not seen at a path that
neither passes through `addr.k` nor ends above it. -/
theorem getPath_modifyAt_frame (k : String) (f : Obj → Obj)
    (hf : ∀ (p : Obj) (k' : String), k' ≠ k → mapGet (f p) k' = mapGet p k') (addr : List String) :
    ∀ (m parent : Obj) (q : List String), descend m addr = some parent →
      ¬ (addr ++ [k]) <+: q → ¬ q <+: (addr ++ [k]) →
      getPath (Value.object (modifyAt addr f m)) q = getPath (Value.object m) q := by
  induction addr with
  | nil =>
    intro m parent q _ h1 h2
    cases q with
    | nil => exact absurd List.nil_prefix h2
    | cons k' q' =>
      have hk : k' ≠ k := by
        intro e
        subst e
        exact h1 (by simp)
      simp [modifyAt, getPath, hf m k' hk]
  | cons a as ih =>
    intro m parent q hd h1 h2
    simp only [descend] at hd
    cases hg : mapGet m a with
    | none => simp [hg] at hd
    | some c =>
      cases c with
      | object c =>
        simp [hg] at hd
        cases q with
        | nil => exact absurd List.nil_prefix h2
        | cons k' q' =>
          by_cases hk : a = k'
          · subst hk
            have h1' : ¬ (as ++ [k]) <+: q' := by
              intro h
              apply h1
              simpa [List.cons_prefix_cons] using h
            have h2' : ¬ q' <+: (as ++ [k]) := by
              intro h
              apply h2
              simpa [List.cons_prefix_cons] using h
            simp [modifyAt, getPath, mapGet_mapModify, hg, ih c parent q' hd h1' h2']
          · simp [modifyAt, getPath, mapGet_mapModify, hk]
      | _ => simp [hg] at hd

/-! ## findFields -/

/-- Along segments that name object-valued fields, none of them `attachments`, the
loop of `findFields` follows the keys. -/
theorem findFieldsLoop_descend (pre : List String) :
    ∀ (m : Obj) (addr : List String) (parent : Obj), "attachments" ∉ pre →
      descend m pre = some parent →
      findFieldsLoop (Value.object m) addr pre = (Value.object parent, addr ++ pre) := by
  induction pre with
  | nil =>
    intro m addr parent _ hd
    simp [descend] at hd
    simp [findFieldsLoop, hd]
  | cons k ks ih =>
    intro m addr parent hatt hd
    have hk : k ≠ "attachments" := fun e => hatt (by simp [e])
    have hks : "attachments" ∉ ks := fun e => hatt (by simp [e])
    simp only [descend] at hd
    cases hg : mapGet m k with
    | none => simp [hg] at hd
    | some c =>
      cases c with
      | object c =>
        simp [hg] at hd
        simp [findFieldsLoop, hk, mapIndex, hg, ih c (addr ++ [k]) parent hks hd]
      | _ => simp [hg] at hd

/-- The loop of `findFields` over two runs of segments is the loop over the second
run, started where the first ends. -/
theorem findFieldsLoop_append (p q : List String) :
    ∀ (v : Value) (addr : List String),
      findFieldsLoop v addr (p ++ q) =
        findFieldsLoop (findFieldsLoop v addr p).1 (findFieldsLoop v addr p).2 q := by
  induction p with
  | nil => intro v addr; simp [findFieldsLoop]
  | cons k ks ih =>
    intro v addr
    cases v with
    | object m =>
      by_cases hk : k = "attachments"
      · simp [findFieldsLoop, hk, ih]
      · simp [findFieldsLoop, hk, ih]
    | _ => simp [findFieldsLoop, ih]

/-- At a value that is not a map the loop of `findFields` stays where it is. -/
theorem findFieldsLoop_stuck (v : Value) (hv : ∀ c : Obj, v ≠ Value.object c) :
    ∀ (segs addr : List String), findFieldsLoop v addr segs = (v, addr) := by
  intro segs
  induction segs with
  | nil => intro addr; simp [findFieldsLoop]
  | cons k ks ih =>
    intro addr
    cases v with
    | object c => exact absurd rfl (hv c)
    | _ => simp [findFieldsLoop, ih]

/-- On object-valued fields `findFields` returns the map they lead to. -/
theorem findFields_descend (pre : List String) (m parent : Obj)
    (hatt : "attachments" ∉ pre) (hd : descend m pre = some parent) :
    findFields (Value.object m) pre = Result.ok { addr := pre, val := parent } := by
  simp [findFields, findFieldsLoop_descend pre m [] parent hatt hd]

/-- The segment `attachments` is not followed: after object-valued fields it leaves
`findFields` at the map that holds the key. -/
theorem findFields_attachments (pre : List String) (m parent : Obj)
    (hatt : "attachments" ∉ pre) (hd : descend m pre = some parent) :
    findFields (Value.object m) (pre ++ ["attachments"]) =
      Result.ok { addr := pre, val := parent } := by
  simp [findFields, findFieldsLoop_append, findFieldsLoop_descend pre m [] parent hatt hd,
    findFieldsLoop]

/-- When a segment leads to a value that is not a map, `findFields` panics at its
final type assertion. -/
theorem findFields_not_object (pre : List String) (k : String) (tail : List String)
    (m parent : Obj) (hatt : "attachments" ∉ pre) (hd : descend m pre = some parent)
    (hk : k ≠ "attachments") (hv : ∀ c : Obj, mapIndex parent k ≠ Value.object c) :
    findFields (Value.object m) (pre ++ k :: tail) = Result.panic Panic.typeAssertion := by
  have h1 : findFieldsLoop (Value.object m) [] (pre ++ k :: tail) =
      (mapIndex parent k, pre ++ [k]) := by
    rw [findFieldsLoop_append, findFieldsLoop_descend pre m [] parent hatt hd]
    simp [findFieldsLoop, hk, findFieldsLoop_stuck _ hv]
  unfold findFields
  rw [h1]
  cases hx : mapIndex parent k with
  | object c => exact absurd hx (hv c)
  | _ => rfl

/-! ## One path of the map -/

/-- The loop body writes the Upload under the final key of the map it resolved. -/
theorem processEntry_upload_key (env : Env) (r : Request) (nilRoot : Bool) (world : World)
    (operations parent : Obj) (idx entry : String) (pre : List String) (last key : String)
    (part : FilePart) (data : Bytes) (fname : String)
    (hsplit : stringsSplit entry = pre ++ [last, key])
    (hobj : descend operations (pre ++ [last]) = some parent)
    (hatt : "attachments" ∉ pre ++ [last])
    (hnarr : ∀ xs, mapIndex parent last ≠ Value.array xs)
    (hplain : Values.Get r.PostForm idx = "")
    (hfile : r.FormFile idx = Except.ok part) (hread : part.content = Except.ok data)
    (htemp : env.tempFile { world with formFileCalls := world.formFileCalls ++ [idx] }
      ("graphqlupload-*" ++ env.toLower (filepathExt part.Filename)) = Except.ok fname)
    (hwrite : env.write fname data = Except.ok ()) :
    processEntry env r nilRoot idx entry operations world =
      (Result.ok (modifyAt (pre ++ [last])
          (fun op => mapSet op key (Value.upload
            { Filename := part.Filename, MimeType := env.detectContentType data,
              Filepath := fname })) operations),
        { spilled := world.spilled,
          formFileCalls := world.formFileCalls ++ [idx],
          created := world.created ++ [fname],
          written := world.written ++ [(fname, data)] }) := by
  have hdrop : (pre ++ [last, key]).dropLast = pre ++ [last] := by
    have : pre ++ [last, key] = (pre ++ [last]) ++ [key] := by simp
    rw [this, List.dropLast_concat]
  have hrev : (pre ++ [last, key]).reverse = key :: last :: pre.reverse := by simp
  have hassign : ∀ u : Upload,
      assignUpload env nilRoot operations { addr := pre ++ [last], val := parent }
          (pre ++ [last, key]) u =
        Result.ok
          (modifyAt (pre ++ [last]) (fun op => mapSet op key (Value.upload u)) operations) := by
    intro u
    unfold assignUpload
    rw [hrev]
    cases hv : mapIndex parent last with
    | array xs => exact absurd hv (hnarr xs)
    | _ => simp [hv]
  unfold processEntry
  simp only [hsplit, hdrop, findFields_descend (pre ++ [last]) operations parent hatt hobj, hplain,
    hfile, hread, htemp, hwrite, hassign]
  simp

/-- The loop body writes the Upload at an index of the array under `attachments`. -/
theorem processEntry_upload_index (env : Env) (r : Request) (nilRoot : Bool) (world : World)
    (operations parent : Obj) (idx entry : String) (pre : List String) (index : String)
    (xs : List Value) (n : Nat) (part : FilePart) (data : Bytes) (fname : String)
    (hsplit : stringsSplit entry = pre ++ ["attachments", index])
    (hobj : descend operations pre = some parent)
    (hatt : "attachments" ∉ pre)
    (harr : mapIndex parent "attachments" = Value.array xs)
    (hindex : atoi index = some (n : Int)) (hn : n < xs.length)
    (hplain : Values.Get r.PostForm idx = "")
    (hfile : r.FormFile idx = Except.ok part) (hread : part.content = Except.ok data)
    (htemp : env.tempFile { world with formFileCalls := world.formFileCalls ++ [idx] }
      ("graphqlupload-*" ++ env.toLower (filepathExt part.Filename)) = Except.ok fname)
    (hwrite : env.write fname data = Except.ok ()) :
    processEntry env r nilRoot idx entry operations world =
      (Result.ok (modifyAt pre
          (fun op => mapSet op "attachments" (Value.array (xs.set n (Value.upload
            { Filename := part.Filename, MimeType := env.detectContentType data,
              Filepath := fname })))) operations),
        { spilled := world.spilled,
          formFileCalls := world.formFileCalls ++ [idx],
          created := world.created ++ [fname],
          written := world.written ++ [(fname, data)] }) := by
  have hdrop : (pre ++ ["attachments", index]).dropLast = pre ++ ["attachments"] := by
    have : pre ++ ["attachments", index] = (pre ++ ["attachments"]) ++ [index] := by simp
    rw [this, List.dropLast_concat]
  have hrev : (pre ++ ["attachments", index]).reverse = index :: "attachments" :: pre.reverse := by
    simp
  have hassign : ∀ u : Upload,
      assignUpload env nilRoot operations { addr := pre, val := parent }
          (pre ++ ["attachments", index]) u =
        Result.ok (modifyAt pre
          (fun op => mapSet op "attachments" (Value.array (xs.set n (Value.upload u))))
          operations) := by
    intro u
    unfold assignUpload
    rw [hrev]
    simp [harr, hindex, hn]
  unfold processEntry
  simp only [hsplit, hdrop, findFields_attachments pre operations parent hatt hobj, hplain,
    hfile, hread, htemp, hwrite, hassign]
  simp

/-- The loop body panics in `findFields`, before any file operation, when a segment
before the last leads to a value that is not a map. -/
theorem processEntry_not_object (env : Env) (r : Request) (nilRoot : Bool) (world : World)
    (operations parent : Obj) (idx entry : String) (pre : List String) (k : String)
    (tail : List String) (key : String)
    (hsplit : stringsSplit entry = pre ++ k :: (tail ++ [key]))
    (hobj : descend operations pre = some parent) (hatt : "attachments" ∉ pre)
    (hk : k ≠ "attachments") (hv : ∀ c : Obj, mapIndex parent k ≠ Value.object c) :
    processEntry env r nilRoot idx entry operations world =
      (Result.panic Panic.typeAssertion, world) := by
  have hdrop : (pre ++ k :: (tail ++ [key])).dropLast = pre ++ k :: tail := by
    have : pre ++ k :: (tail ++ [key]) = (pre ++ k :: tail) ++ [key] := by simp
    rw [this, List.dropLast_concat]
  unfold processEntry
  simp only [hsplit, hdrop, findFields_not_object pre k tail operations parent hatt hobj hk hv]

/-- The call `ParseMultipartForm` writes neither the header nor the method of the
request, and makes none of the file operations of the rewriter. -/
theorem ParseMultipartForm_keeps (env : Env) (r : Request) (world : World) (rp : Request)
    (wp : World) (hparse : r.ParseMultipartForm env multipartMemory world = (rp, wp)) :
    rp.Header = r.Header ∧ rp.Method = r.Method ∧ wp.formFileCalls = world.formFileCalls ∧
      wp.created = world.created ∧ wp.written = world.written := by
  simp only [Request.ParseMultipartForm, Prod.mk.injEq] at hparse
  obtain ⟨h1, h2⟩ := hparse
  subst h1 h2
  exact ⟨rfl, rfl, rfl, rfl, rfl⟩

/-- A panic at the first path the loop visits ends `validateRequest`. -/
theorem validateRequest_first_path_panics (env : Env) (w : ResponseWriter) (r : Request)
    (world : World) (rp : Request) (wp : World) (operations : Obj) (idx entry : String)
    (more : List String) (rest : List (String × List String))
    (hparse : r.ParseMultipartForm env multipartMemory world = (rp, wp))
    (hops : env.jsonUnmarshalOperations (rp.PostFormValue "operations") = some operations)
    (hmap : env.jsonUnmarshalMap (rp.PostFormValue "map") = some ((idx, entry :: more) :: rest))
    (hstep : processEntry env rp (env.jsonNull (rp.PostFormValue "operations")) idx entry
      operations wp = (Result.panic Panic.typeAssertion, wp)) :
    validateRequest env w r world =
      { result := Result.panic Panic.typeAssertion, w := w, r := rp, world := wp } := by
  simp [validateRequest, hparse, addressIsNil, hops, hmap, processMap, processPaths, hstep]

/-- A panic of `validateRequest` escapes the handler: no reply is written and `next`
is not called. -/
theorem Handler_of_panic (env : Env) (w : ResponseWriter) (r : Request) (world : World)
    (rp : Request) (wp : World) (p : Panic) (hgate : isMiddlewareSupported env r = true)
    (h : validateRequest env w r world =
      { result := Result.panic p, w := w, r := rp, world := wp }) :
    Handler env w r world = { next := none, w := w, world := wp, panicked := some p } := by
  simp [Handler, hgate, h]

/-- When one of the two documents does not decode, the error is one of the two
malformed-query errors. -/
theorem malformed_result_cases (env : Env) (w : ResponseWriter) (r : Request)
    (world : World) (rp : Request) (wp : World)
    (hparse : r.ParseMultipartForm env multipartMemory world = (rp, wp))
    (h : env.jsonUnmarshalOperations (rp.PostFormValue "operations") = none ∨
      env.jsonUnmarshalMap (rp.PostFormValue "map") = none) :
    (validateRequest env w r world).result =
        Result.error "cannot unmarshal operations: malformed query" ∨
      (validateRequest env w r world).result =
        Result.error "cannot unmarshal map entries: malformed query" := by
  cases ho : env.jsonUnmarshalOperations (rp.PostFormValue "operations") with
  | none => simp [validateRequest, hparse, addressIsNil, ho]
  | some operations =>
    have hm : env.jsonUnmarshalMap (rp.PostFormValue "map") = none := by
      rcases h with h | h
      · rw [ho] at h
        cases h
      · exact h
    simp [validateRequest, hparse, addressIsNil, ho, hm]

/-- The environment `stdlib` never fails to store a file. -/
theorem stdlib_storageWorks : StorageWorks stdlib := by
  constructor
  · intro world pattern
    by_cases h : pattern = "graphqlupload-*.txt"
    · exact ⟨"/tmp/graphqlupload-271828.txt", by simp [stdlib, h]⟩
    · exact ⟨"/tmp/graphqlupload-271828", by simp [stdlib, h]⟩
  · intro name data
    rfl

/-- The index write through `attachments`.  Let the map hold the one path
`pre.attachments.index`, whose segments `pre` name in turn existing object-valued
fields, none of them `attachments`, let the object reached hold an array under the
key `attachments`, and let `index` be a decimal number within the bounds of that
array.  If the field index has no non-empty plain form value, its file part opens
and reads, and temporary storage works, then `validateRequest` returns no error and
the tree of the new body holds under `pre.attachments` an array of the same length,
with the Upload at that index and every other element unchanged. -/
theorem validateRequest_attachments_index (env : Env) (w : ResponseWriter) (r : Request)
    (world : World) (rp : Request) (wp : World) (operations parent : Obj) (idx entry : String)
    (pre : List String) (index : String) (xs : List Value) (n : Nat) (part : FilePart)
    (data : Bytes)
    (hparse : r.ParseMultipartForm env multipartMemory world = (rp, wp))
    (hops : env.jsonUnmarshalOperations (rp.PostFormValue "operations") = some operations)
    (hmap : env.jsonUnmarshalMap (rp.PostFormValue "map") = some [(idx, [entry])])
    (hsplit : stringsSplit entry = pre ++ ["attachments", index])
    (hobj : descend operations pre = some parent)
    (hatt : "attachments" ∉ pre)
    (harr : mapIndex parent "attachments" = Value.array xs)
    (hindex : atoi index = some (n : Int)) (hn : n < xs.length)
    (hplain : Values.Get rp.PostForm idx = "")
    (hfile : rp.FormFile idx = Except.ok part) (hread : part.content = Except.ok data)
    (hstore : StorageWorks env) :
    (validateRequest env w r world).result = Result.ok () ∧
      ∃ (operations1 : Obj) (fname : String) (ys : List Value),
        (validateRequest env w r world).r.Body = Body.json
            { Variables := mapIndex operations1 "variables"
              Query := mapIndex operations1 "query"
              Operations := operations1
              Map := [(idx, [entry])] } ∧
          getPath (Value.object operations1) (pre ++ ["attachments"]) = some (Value.array ys) ∧
          ys.length = xs.length ∧
          ys[n]? = some (Value.upload
            { Filename := part.Filename, MimeType := env.detectContentType data,
              Filepath := fname }) ∧
          ∀ j : Nat, j ≠ n → ys[j]? = xs[j]? := by
  obtain ⟨fname, htemp⟩ := hstore.1 { wp with formFileCalls := wp.formFileCalls ++ [idx] }
    ("graphqlupload-*" ++ env.toLower (filepathExt part.Filename))
  have hwrite := hstore.2 fname data
  have hstep := processEntry_upload_index env rp (env.jsonNull (rp.PostFormValue "operations")) wp operations parent idx
    entry pre index xs n part data fname hsplit hobj hatt harr hindex hn hplain hfile hread htemp hwrite
  refine ⟨?_, modifyAt pre (fun op => mapSet op "attachments" (Value.array (xs.set n
      (Value.upload ⟨part.Filename, env.detectContentType data, fname⟩)))) operations, fname,
      xs.set n (Value.upload ⟨part.Filename, env.detectContentType data, fname⟩),
      ?_, ?_, ?_, ?_, ?_⟩
  · simp [validateRequest, hparse, addressIsNil, hops, hmap, processMap, processPaths, hstep, jsonMarshal]
  · simp [validateRequest, hparse, addressIsNil, hops, hmap, processMap, processPaths, hstep, jsonMarshal]
  · rw [getPath_modifyAt_hit pre _ operations parent ["attachments"] hobj]
    simp [getPath, mapGet_mapSet]
  · simp
  · simp [List.getElem?_set, hn]
  · intro j hj
    have : ¬ n = j := fun e => hj e.symm
    simp [List.getElem?_set, this]

/-- The index write through `attachments` at the path `variables.attachments.1`, on
a two-element array. -/
theorem validateRequest_attachments_index_example :
    (validateRequest stdlib freshWriter
        (uploadRequest attachmentsOpsText "\x7b\"0\":[\"variables.attachments.1\"]\x7d" [])
        freshWorld).result = Result.ok () ∧
      ∃ (operations1 : Obj) (fname : String) (ys : List Value),
        (validateRequest stdlib freshWriter
          (uploadRequest attachmentsOpsText "\x7b\"0\":[\"variables.attachments.1\"]\x7d" [])
          freshWorld).r.Body = Body.json
            { Variables := mapIndex operations1 "variables"
              Query := mapIndex operations1 "query"
              Operations := operations1
              Map := [("0", ["variables.attachments.1"])] } ∧
          getPath (Value.object operations1) (["variables"] ++ ["attachments"])
            = some (Value.array ys) ∧
          ys.length =
            [Value.object [("n", Value.number 0)],
              Value.object [("n", Value.number 4607182418800017408)]].length ∧
          ys[1]? = some (Value.upload
            { Filename := helloPart.Filename, MimeType := stdlib.detectContentType helloBytes,
              Filepath := fname }) ∧
          ∀ j : Nat, j ≠ 1 → ys[j]? =
            [Value.object [("n", Value.number 0)],
              Value.object [("n", Value.number 4607182418800017408)]][j]? :=
  validateRequest_attachments_index stdlib freshWriter
    (uploadRequest attachmentsOpsText "\x7b\"0\":[\"variables.attachments.1\"]\x7d" [])
    freshWorld
    (uploadParsed attachmentsOpsText "\x7b\"0\":[\"variables.attachments.1\"]\x7d" [])
    freshWorld attachmentsOps
    [("attachments", Value.array
      [Value.object [("n", Value.number 0)],
       Value.object [("n", Value.number 4607182418800017408)]])]
    "0" "variables.attachments.1" ["variables"] "1"
    [Value.object [("n", Value.number 0)], Value.object [("n", Value.number 4607182418800017408)]]
    1 helloPart helloBytes
    (by rfl) (by rfl) (by rfl) (by rfl) (by rfl) (by decide) (by rfl) (by rfl) (by decide)
    (by rfl) (by rfl) (by rfl) stdlib_storageWorks

/-- A nil root map: for the `operations` text `null` and the path
`attachments.file`, `findFields` returns the root, and the assignment of the
Upload to an entry of the nil map panics. -/
theorem validateRequest_null_operations_panics :
    (validateRequest stdlib freshWriter
        (uploadRequest "null" "\x7b\"0\":[\"attachments.file\"]\x7d" [])
        freshWorld).result = Result.panic Panic.nilMap :=
  rfl

/-! ## The order of keys and the decoding of an Upload -/

/-- Characters with the same code are equal. -/
theorem char_eq_of_toNat_eq {a b : Char} (h : a.toNat = b.toNat) : a = b := by
  rw [← Char.ofNat_toNat a, ← Char.ofNat_toNat b, h]

/-- The key order is total. -/
theorem leChars_total : ∀ (a b : List Char), leChars a b = false → leChars b a = true := by
  intro a
  induction a with
  | nil => intro b h; simp [leChars] at h
  | cons x xs ih =>
    intro b h
    cases b with
    | nil => simp [leChars]
    | cons y ys =>
      simp only [leChars] at h ⊢
      by_cases h1 : x.toNat < y.toNat
      · simp [h1] at h
      · by_cases h2 : y.toNat < x.toNat
        · simp [h2]
        · simp only [h1, h2, if_false] at h ⊢
          exact ih ys h

/-- The key order is antisymmetric. -/
theorem leChars_antisymm : ∀ (a b : List Char), leChars a b = true → leChars b a = true → a = b := by
  intro a
  induction a with
  | nil =>
    intro b _ h2
    cases b with
    | nil => rfl
    | cons y ys => simp [leChars] at h2
  | cons x xs ih =>
    intro b h1 h2
    cases b with
    | nil => simp [leChars] at h1
    | cons y ys =>
      simp only [leChars] at h1 h2
      by_cases c1 : x.toNat < y.toNat
      · have c2 : ¬ y.toNat < x.toNat := by omega
        simp [c1, c2] at h2
      · by_cases c2 : y.toNat < x.toNat
        · simp [c1, c2] at h1
        · simp only [c1, c2, if_false] at h1 h2
          have e : x = y := char_eq_of_toNat_eq (by omega)
          rw [e, ih ys h1 h2]

/-- The key order is transitive. -/
theorem leChars_trans : ∀ (a b c : List Char), leChars a b = true → leChars b c = true →
    leChars a c = true := by
  intro a
  induction a with
  | nil => intro b c _ _; simp [leChars]
  | cons x xs ih =>
    intro b c h1 h2
    cases b with
    | nil => simp [leChars] at h1
    | cons y ys =>
      cases c with
      | nil => simp [leChars] at h2
      | cons z zs =>
        simp only [leChars] at h1 h2 ⊢
        by_cases c1 : x.toNat < y.toNat
        · by_cases c2 : y.toNat < z.toNat
          · have : x.toNat < z.toNat := by omega
            simp [this]
          · by_cases c3 : z.toNat < y.toNat
            · simp [c2, c3] at h2
            · have : x.toNat < z.toNat := by omega
              simp [this]
        · by_cases c1b : y.toNat < x.toNat
          · simp [c1, c1b] at h1
          · simp only [c1, c1b, if_false] at h1
            by_cases c2 : y.toNat < z.toNat
            · have : x.toNat < z.toNat := by omega
              simp [this]
            · by_cases c3 : z.toNat < y.toNat
              · simp [c2, c3] at h2
              · simp only [c2, c3, if_false] at h2
                have e1 : ¬ x.toNat < z.toNat := by omega
                have e2 : ¬ z.toNat < x.toNat := by omega
                simp only [e1, e2, if_false]
                exact ih ys zs h1 h2

/-- A key that matches a field name is not above the name in the key order. -/
theorem leChars_of_foldEqChars : ∀ (t c : List Char), foldEqChars t c = true →
    leChars c t = true := by
  intro t
  induction t with
  | nil =>
    intro c h
    cases c with
    | nil => simp [leChars]
    | cons y ys => simp [foldEqChars] at h
  | cons x xs ih =>
    intro c h
    cases c with
    | nil => simp [foldEqChars] at h
    | cons y ys =>
      simp only [foldEqChars, foldEqChar, Bool.and_eq_true, Bool.or_eq_true, decide_eq_true_eq] at h
      obtain ⟨hc, hrest⟩ := h
      simp only [leChars]
      rcases hc with hc | hc
      · subst hc
        simp [ih ys hrest]
      · have : y.toNat < x.toNat := by omega
        simp [this]

/-- The members of a list after an insertion. -/
theorem mem_insertKey (x k : String) (l : List String) : x ∈ insertKey k l ↔ x = k ∨ x ∈ l := by
  induction l with
  | nil => simp [insertKey]
  | cons a as ih =>
    by_cases h : leChars k.data a.data = true
    · simp [insertKey, h]
    · simp only [insertKey, h]
      simp only [Bool.false_eq_true, if_false, List.mem_cons, ih]
      tauto

/-- Sorting keeps the members of a list. -/
theorem mem_sortKeys (x : String) (l : List String) : x ∈ sortKeys l ↔ x ∈ l := by
  induction l with
  | nil => simp [sortKeys]
  | cons a as ih => simp [sortKeys, mem_insertKey, ih]

/-- Insertion keeps a list sorted. -/
theorem pairwise_insertKey (k : String) (l : List String)
    (h : l.Pairwise (fun a b => leChars a.data b.data = true)) :
    (insertKey k l).Pairwise (fun a b => leChars a.data b.data = true) := by
  induction l with
  | nil => simp [insertKey]
  | cons a as ih =>
    rw [List.pairwise_cons] at h
    by_cases hk : leChars k.data a.data = true
    · simp only [insertKey, hk, if_true]
      rw [List.pairwise_cons]
      refine ⟨?_, List.pairwise_cons.mpr h⟩
      intro x hx
      rcases List.mem_cons.mp hx with e | e
      · rw [e]; exact hk
      · exact leChars_trans _ _ _ hk (h.1 x e)
    · simp only [insertKey, hk]
      simp only [Bool.false_eq_true, if_false]
      rw [List.pairwise_cons]
      refine ⟨?_, ih h.2⟩
      intro x hx
      rcases (mem_insertKey x k as).mp hx with e | e
      · rw [e]
        exact leChars_total _ _ (by simpa using hk)
      · exact h.1 x e

/-- The result of `sortKeys` is sorted. -/
theorem pairwise_sortKeys (l : List String) :
    (sortKeys l).Pairwise (fun a b => leChars a.data b.data = true) := by
  induction l with
  | nil => simp [sortKeys]
  | cons a as ih => exact pairwise_insertKey a _ ih

/-- Members whose keys do not match a field leave the field as it is. -/
theorem foldl_decode_keep (proj : Upload → String) (tag : String) (m : Obj)
    (hkeep : ∀ (u : Upload) (k : String) (v : Value), keyMatches tag k = false →
      proj (decodeMember u k v) = proj u) :
    ∀ (l : List String) (u : Upload), (∀ k ∈ l, keyMatches tag k = false) →
      proj (l.foldl (fun acc key => decodeMember acc key (mapIndex m key)) u) = proj u := by
  intro l
  induction l with
  | nil => intro u _; rfl
  | cons a as ih =>
    intro u h
    simp only [List.foldl_cons]
    rw [ih _ (fun k hk => h k (List.mem_cons_of_mem _ hk))]
    exact hkeep u a _ (h a (List.mem_cons_self _ _))

/-- Over sorted keys, the member whose key is the field name itself is the last one
that matches the field, so its string is the final value of the field. -/
theorem foldl_decode_field (proj : Upload → String) (tag : String) (m : Obj) (s : String)
    (hset : ∀ u : Upload, proj (decodeMember u tag (mapIndex m tag)) = s)
    (hkeep : ∀ (u : Upload) (k : String) (v : Value), keyMatches tag k = false →
      proj (decodeMember u k v) = proj u) :
    ∀ (l : List String), l.Pairwise (fun a b => leChars a.data b.data = true) → tag ∈ l →
      ∀ u : Upload, proj (l.foldl (fun acc key => decodeMember acc key (mapIndex m key)) u) = s := by
  intro l
  induction l with
  | nil => intro _ h; cases h
  | cons a as ih =>
    intro hs hmem u
    rw [List.pairwise_cons] at hs
    simp only [List.foldl_cons]
    by_cases hin : tag ∈ as
    · exact ih hs.2 hin _
    · have ha : a = tag := by
        rcases List.mem_cons.mp hmem with e | e
        · exact e.symm
        · exact absurd e hin
      subst ha
      rw [foldl_decode_keep proj a m hkeep as _ ?_]
      · exact hset u
      · intro k hk
        cases hm : keyMatches a k with
        | false => rfl
        | true =>
          exfalso
          have h1 : leChars k.data a.data = true := leChars_of_foldEqChars _ _ hm
          have h2 : leChars a.data k.data = true := hs.1 k hk
          have e : k.data = a.data := leChars_antisymm _ _ h1 h2
          have e2 : k = a := by
            cases k; cases a; simp_all
          exact hin (e2 ▸ hk)

/-- A key that can be read is among the keys of the map. -/
theorem mem_keys_of_mapGet (m : Obj) (k : String) (v : Value) (h : mapGet m k = some v) :
    k ∈ m.map Prod.fst := by
  induction m with
  | nil => simp [mapGet] at h
  | cons kv rest ih =>
    obtain ⟨a, x⟩ := kv
    by_cases e : a = k
    · simp [e]
    · simp only [mapGet, e, if_false] at h
      simp [ih h]

/-- Decoding a map whose `filename`, `mimetype` and `filepath` entries are strings
gives the Upload of these three strings. -/
theorem jsonUnmarshalUpload_strings (m : Obj) (u : Upload) (a b c : String)
    (ha : mapGet m "filename" = some (Value.string a))
    (hb : mapGet m "mimetype" = some (Value.string b))
    (hc : mapGet m "filepath" = some (Value.string c)) :
    jsonUnmarshalUpload m u = { Filename := a, MimeType := b, Filepath := c } := by
  have hsorted := pairwise_sortKeys (m.map Prod.fst)
  have h1 : (jsonUnmarshalUpload m u).Filename = a := by
    apply foldl_decode_field Upload.Filename "filename" m a ?_ ?_ _ hsorted
      ((mem_sortKeys _ _).mpr (mem_keys_of_mapGet m _ _ ha)) u
    · intro u
      have e : keyMatches "filename" "filename" = true := by rfl
      simp [decodeMember, mapIndex, ha, e]
    · intro u k v hk
      cases v <;> simp only [decodeMember, hk, Bool.false_eq_true, if_false]
      split_ifs <;> rfl
  have h2 : (jsonUnmarshalUpload m u).MimeType = b := by
    apply foldl_decode_field Upload.MimeType "mimetype" m b ?_ ?_ _ hsorted
      ((mem_sortKeys _ _).mpr (mem_keys_of_mapGet m _ _ hb)) u
    · intro u
      have e : keyMatches "mimetype" "mimetype" = true := by rfl
      have e0 : keyMatches "filename" "mimetype" = false := by rfl
      simp [decodeMember, mapIndex, hb, e, e0]
    · intro u k v hk
      cases v <;> simp only [decodeMember, hk, Bool.false_eq_true, if_false]
      split_ifs <;> rfl
  have h3 : (jsonUnmarshalUpload m u).Filepath = c := by
    apply foldl_decode_field Upload.Filepath "filepath" m c ?_ ?_ _ hsorted
      ((mem_sortKeys _ _).mpr (mem_keys_of_mapGet m _ _ hc)) u
    · intro u
      have e : keyMatches "filepath" "filepath" = true := by rfl
      have e0 : keyMatches "filename" "filepath" = false := by rfl
      have e1 : keyMatches "mimetype" "filepath" = false := by rfl
      simp [decodeMember, mapIndex, hc, e, e0, e1]
    · intro u k v hk
      cases v <;> simp only [decodeMember, hk, Bool.false_eq_true, if_false]
      split_ifs <;> rfl
  cases hr : jsonUnmarshalUpload m u with
  | mk f mt fp =>
    rw [hr] at h1 h2 h3
    simp only at h1 h2 h3
    rw [h1, h2, h3]

/-! ## Properties of the specification -/

/-- C1, amended: file substitution at an object key.  Let the map hold the one path
`pre.last.key`, whose segments before the final one name in turn, from the
operations root, existing object-valued fields, none of them the literal
`attachments`, and let the object reached hold no array under the key `last`.  If
the field index has no non-empty plain form value, its file part opens and reads,
and temporary storage works, then `validateRequest` returns no error; the tree of
the new body holds at the mapped path an Upload whose `Filename` is the
client-declared name and whose `MimeType` is the type detected from the content;
and every path that neither passes through the mapped path nor ends above it
reads as in the decoded operations. -/
theorem validateRequest_upload_at_key (env : Env) (w : ResponseWriter) (r : Request)
    (world : World) (rp : Request) (wp : World) (operations parent : Obj) (idx entry : String)
    (pre : List String) (last key : String) (part : FilePart) (data : Bytes)
    (hparse : r.ParseMultipartForm env multipartMemory world = (rp, wp))
    (hops : env.jsonUnmarshalOperations (rp.PostFormValue "operations") = some operations)
    (hmap : env.jsonUnmarshalMap (rp.PostFormValue "map") = some [(idx, [entry])])
    (hsplit : stringsSplit entry = pre ++ [last, key])
    (hobj : descend operations (pre ++ [last]) = some parent)
    (hatt : "attachments" ∉ pre ++ [last])
    (hnarr : ∀ xs, mapIndex parent last ≠ Value.array xs)
    (hplain : Values.Get rp.PostForm idx = "")
    (hfile : rp.FormFile idx = Except.ok part) (hread : part.content = Except.ok data)
    (hstore : StorageWorks env) :
    (validateRequest env w r world).result = Result.ok () ∧
      ∃ (operations1 : Obj) (fname : String),
        (validateRequest env w r world).r.Body = Body.json
            { Variables := mapIndex operations1 "variables"
              Query := mapIndex operations1 "query"
              Operations := operations1
              Map := [(idx, [entry])] } ∧
          getPath (Value.object operations1) (pre ++ [last, key]) = some (Value.upload
            { Filename := part.Filename, MimeType := env.detectContentType data,
              Filepath := fname }) ∧
          ∀ q : List String, ¬ (pre ++ [last, key]) <+: q → ¬ q <+: (pre ++ [last, key]) →
            getPath (Value.object operations1) q = getPath (Value.object operations) q := by
  obtain ⟨fname, htemp⟩ := hstore.1 { wp with formFileCalls := wp.formFileCalls ++ [idx] }
    ("graphqlupload-*" ++ env.toLower (filepathExt part.Filename))
  have hwrite := hstore.2 fname data
  have hstep := processEntry_upload_key env rp (env.jsonNull (rp.PostFormValue "operations")) wp operations parent idx
    entry pre last key part data fname hsplit hobj hatt hnarr hplain hfile hread htemp hwrite
  have hset : ∀ (u : Upload) (p : Obj) (k' : String), k' ≠ key →
      mapGet ((fun op => mapSet op key (Value.upload u)) p) k' = mapGet p k' := by
    intro u p k' hk
    have : ¬ key = k' := fun e => hk e.symm
    simp [mapGet_mapSet, this]
  refine ⟨?_, modifyAt (pre ++ [last]) (fun op => mapSet op key (Value.upload
      { Filename := part.Filename, MimeType := env.detectContentType data,
        Filepath := fname })) operations, fname, ?_, ?_, ?_⟩
  · simp [validateRequest, hparse, addressIsNil, hops, hmap, processMap, processPaths, hstep, jsonMarshal]
  · simp [validateRequest, hparse, addressIsNil, hops, hmap, processMap, processPaths, hstep, jsonMarshal]
  · have h := getPath_modifyAt_hit (pre ++ [last]) (fun op => mapSet op key (Value.upload
      { Filename := part.Filename, MimeType := env.detectContentType data,
        Filepath := fname })) operations parent [key] hobj
    have e : pre ++ [last, key] = (pre ++ [last]) ++ [key] := by simp
    rw [e, h]
    simp [getPath, mapGet_mapSet]
  · intro q h1 h2
    have e : pre ++ [last, key] = (pre ++ [last]) ++ [key] := by simp
    rw [e] at h1 h2
    exact getPath_modifyAt_frame key _ (hset _) (pre ++ [last]) operations parent q hobj h1 h2

/-- C1, witness: the path `variables.file` of the first scenario, with the file
`Hello.TXT`. -/
theorem validateRequest_upload_at_key_witness :
    (validateRequest stdlib freshWriter
        (uploadRequest fileOpsText "\x7b\"0\":[\"variables.file\"]\x7d" []) freshWorld).result
      = Result.ok () ∧
      ∃ (operations1 : Obj) (fname : String),
        (validateRequest stdlib freshWriter
          (uploadRequest fileOpsText "\x7b\"0\":[\"variables.file\"]\x7d" []) freshWorld).r.Body
          = Body.json
            { Variables := mapIndex operations1 "variables"
              Query := mapIndex operations1 "query"
              Operations := operations1
              Map := [("0", ["variables.file"])] } ∧
          getPath (Value.object operations1) ([] ++ ["variables", "file"]) = some (Value.upload
            { Filename := helloPart.Filename, MimeType := stdlib.detectContentType helloBytes,
              Filepath := fname }) ∧
          ∀ q : List String, ¬ ([] ++ ["variables", "file"]) <+: q →
            ¬ q <+: ([] ++ ["variables", "file"]) →
            getPath (Value.object operations1) q = getPath (Value.object fileOps) q :=
  validateRequest_upload_at_key stdlib freshWriter
    (uploadRequest fileOpsText "\x7b\"0\":[\"variables.file\"]\x7d" []) freshWorld
    (uploadParsed fileOpsText "\x7b\"0\":[\"variables.file\"]\x7d" []) freshWorld
    fileOps [("file", Value.null)] "0" "variables.file" [] "variables" "file"
    helloPart helloBytes
    (by rfl) (by rfl) (by rfl) (by rfl) (by rfl) (by decide) (by intro xs h; cases h) (by rfl) (by rfl)
    (by rfl) stdlib_storageWorks

/-- C1, counterexample: in `{"variables":{"attachments":{"file":null}}}` both
segments before the last of `variables.attachments.file` name existing
object-valued fields, the call returns no error, and yet the mapped path still
holds `null`: the Upload is written under `variables.file`, a key that did not
exist. -/
theorem validateRequest_attachments_object_counterexample :
    descend nestedOps ["variables", "attachments"] = some [("file", Value.null)] ∧
      (validateRequest stdlib freshWriter
        (uploadRequest nestedOpsText "\x7b\"0\":[\"variables.attachments.file\"]\x7d" [])
        freshWorld).result = Result.ok () ∧
      (validateRequest stdlib freshWriter
        (uploadRequest nestedOpsText "\x7b\"0\":[\"variables.attachments.file\"]\x7d" [])
        freshWorld).r.Body = Body.json
          { Variables := Value.object
              [("attachments", Value.object [("file", Value.null)]),
               ("file", Value.upload helloUpload)]
            Query := Value.null
            Operations := [("variables", Value.object
              [("attachments", Value.object [("file", Value.null)]),
               ("file", Value.upload helloUpload)])]
            Map := [("0", ["variables.attachments.file"])] } ∧
      getPath (Value.object [("variables", Value.object
          [("attachments", Value.object [("file", Value.null)]),
           ("file", Value.upload helloUpload)])]) ["variables", "attachments", "file"]
        = some Value.null ∧
      getPath (Value.object nestedOps) ["variables", "file"] = none :=
  ⟨rfl, rfl, rfl, rfl, rfl⟩

/-- C2: file substitution at an array index.  When the second-to-last segment of a
path is a key other than `attachments` that names a field holding an array,
`validateRequest` panics at the type assertion that ends `findFields`, whatever
the last segment, before any file part is opened: nothing is written into the
array, no error is returned, and the handler neither replies nor calls `next`.
The specification asks for the Upload at the index given by the last segment; the
code does that write only when the key is `attachments`, which `findFields` does
not follow. -/
theorem validateRequest_array_field_panics (env : Env) (w : ResponseWriter) (r : Request)
    (world : World) (rp : Request) (wp : World) (operations parent : Obj) (idx entry : String)
    (pre : List String) (k index : String) (xs : List Value) (more : List String)
    (rest : List (String × List String))
    (hgate : isMiddlewareSupported env r = true)
    (hparse : r.ParseMultipartForm env multipartMemory world = (rp, wp))
    (hops : env.jsonUnmarshalOperations (rp.PostFormValue "operations") = some operations)
    (hmap : env.jsonUnmarshalMap (rp.PostFormValue "map") = some ((idx, entry :: more) :: rest))
    (hsplit : stringsSplit entry = pre ++ [k, index])
    (hobj : descend operations pre = some parent) (hatt : "attachments" ∉ pre)
    (hk : k ≠ "attachments") (harr : mapIndex parent k = Value.array xs) :
    (validateRequest env w r world).result = Result.panic Panic.typeAssertion ∧
      (∀ msg : String, (validateRequest env w r world).result ≠ Result.error msg) ∧
      (validateRequest env w r world).world = wp ∧
      Handler env w r world =
        { next := none, w := w, world := wp, panicked := some Panic.typeAssertion } := by
  have hstep := processEntry_not_object env rp (env.jsonNull (rp.PostFormValue "operations")) wp
    operations parent idx entry pre k [] index (by simpa using hsplit) hobj hatt hk
    (by intro c; simp [harr])
  have hv := validateRequest_first_path_panics env w r world rp wp operations idx entry more
    rest hparse hops hmap hstep
  refine ⟨by rw [hv], ?_, by rw [hv], Handler_of_panic env w r world rp wp _ hgate hv⟩
  intro msg
  rw [hv]
  simp

/-- C2, witness: `variables.files` holds an array of two objects and `0` is an
index within its bounds; for the path `variables.files.0` the call panics. -/
theorem validateRequest_array_field_panics_witness :
    (validateRequest stdlib freshWriter
        (uploadRequest filesOpsText "\x7b\"0\":[\"variables.files.0\"]\x7d" [])
        freshWorld).result = Result.panic Panic.typeAssertion ∧
      (∀ msg : String, (validateRequest stdlib freshWriter
        (uploadRequest filesOpsText "\x7b\"0\":[\"variables.files.0\"]\x7d" [])
        freshWorld).result ≠ Result.error msg) ∧
      (validateRequest stdlib freshWriter
        (uploadRequest filesOpsText "\x7b\"0\":[\"variables.files.0\"]\x7d" [])
        freshWorld).world = freshWorld ∧
      Handler stdlib freshWriter
        (uploadRequest filesOpsText "\x7b\"0\":[\"variables.files.0\"]\x7d" [])
        freshWorld =
        { next := none, w := freshWriter, world := freshWorld,
          panicked := some Panic.typeAssertion } :=
  validateRequest_array_field_panics stdlib freshWriter
    (uploadRequest filesOpsText "\x7b\"0\":[\"variables.files.0\"]\x7d" [])
    freshWorld
    (uploadParsed filesOpsText "\x7b\"0\":[\"variables.files.0\"]\x7d" [])
    freshWorld filesOps
    [("files", Value.array
      [Value.object [("n", Value.number 0)],
       Value.object [("n", Value.number 4607182418800017408)]])]
    "0" "variables.files.0" ["variables"] "files" "0"
    [Value.object [("n", Value.number 0)], Value.object [("n", Value.number 4607182418800017408)]]
    [] []
    (by rfl) (by rfl) (by rfl) (by rfl) (by rfl) (by rfl) (by decide) (by decide) (by rfl)

/-- C3: path resolution through an array of objects.  When `variables.input` is an
array, every path `variables.input.<i>.<k>` makes `validateRequest` panic at the
type assertion that ends `findFields`, for the array is a `[]interface{}` and
not a `[]map[string]interface{}`; the handler neither replies nor calls `next`.
The specification asks for the Upload in the element at index `i`. -/
theorem validateRequest_array_of_objects_panics (env : Env) (w : ResponseWriter) (r : Request)
    (world : World) (rp : Request) (wp : World) (operations vars : Obj) (xs : List Value)
    (idx entry i k : String)
    (more : List String) (rest : List (String × List String))
    (hgate : isMiddlewareSupported env r = true)
    (hparse : r.ParseMultipartForm env multipartMemory world = (rp, wp))
    (hops : env.jsonUnmarshalOperations (rp.PostFormValue "operations") = some operations)
    (hmap : env.jsonUnmarshalMap (rp.PostFormValue "map") = some ((idx, entry :: more) :: rest))
    (hsplit : stringsSplit entry = ["variables", "input", i, k])
    (hvars : mapGet operations "variables" = some (Value.object vars))
    (hinput : mapGet vars "input" = some (Value.array xs)) :
    (validateRequest env w r world).result = Result.panic Panic.typeAssertion ∧
      Handler env w r world =
        { next := none, w := w, world := wp, panicked := some Panic.typeAssertion } := by
  have hstep := processEntry_not_object env rp (env.jsonNull (rp.PostFormValue "operations")) wp operations vars idx entry
    ["variables"]
    "input" [i] k (by simpa using hsplit) (by simp [descend, hvars]) (by decide) (by decide)
    (by intro c; simp [mapIndex, hinput])
  have hv := validateRequest_first_path_panics env w r world rp wp operations idx entry more
    rest hparse hops hmap hstep
  exact ⟨by rw [hv], Handler_of_panic env w r world rp wp _ hgate hv⟩

/-- C3, witness: the path `variables.input.1.file` on a two-element array of
objects, the second scenario. -/
theorem validateRequest_array_of_objects_panics_witness :
    (validateRequest stdlib freshWriter
        (uploadRequest inputListOpsText "\x7b\"0\":[\"variables.input.1.file\"]\x7d" [])
        freshWorld).result = Result.panic Panic.typeAssertion ∧
      Handler stdlib freshWriter
        (uploadRequest inputListOpsText "\x7b\"0\":[\"variables.input.1.file\"]\x7d" [])
        freshWorld =
        { next := none, w := freshWriter, world := freshWorld,
          panicked := some Panic.typeAssertion } :=
  validateRequest_array_of_objects_panics stdlib freshWriter
    (uploadRequest inputListOpsText "\x7b\"0\":[\"variables.input.1.file\"]\x7d" [])
    freshWorld
    (uploadParsed inputListOpsText "\x7b\"0\":[\"variables.input.1.file\"]\x7d" [])
    freshWorld inputListOps
    [("input", Value.array
      [Value.object [("file", Value.null)], Value.object [("file", Value.null)]])]
    [Value.object [("file", Value.null)], Value.object [("file", Value.null)]]
    "0" "variables.input.1.file" "1" "file" [] []
    (by rfl) (by rfl) (by rfl) (by rfl) (by rfl) (by rfl) (by rfl)

/-- C4: an unresolvable path.  When a segment before the last names, in the object
reached so far, a key that does not exist or that holds a value other than an
object, `validateRequest` panics at the type assertion that ends `findFields`: it
returns no error, and the handler neither answers 400 nor calls `next`.  The specification asks for a path-resolution
error and HTTP 400. -/
theorem validateRequest_unresolvable_panics (env : Env) (w : ResponseWriter) (r : Request)
    (world : World) (rp : Request) (wp : World) (operations parent : Obj) (idx entry : String)
    (pre : List String)
    (k : String) (tail : List String) (key : String) (more : List String)
    (rest : List (String × List String))
    (hgate : isMiddlewareSupported env r = true)
    (hparse : r.ParseMultipartForm env multipartMemory world = (rp, wp))
    (hops : env.jsonUnmarshalOperations (rp.PostFormValue "operations") = some operations)
    (hmap : env.jsonUnmarshalMap (rp.PostFormValue "map") = some ((idx, entry :: more) :: rest))
    (hsplit : stringsSplit entry = pre ++ k :: (tail ++ [key]))
    (hobj : descend operations pre = some parent) (hatt : "attachments" ∉ pre)
    (hk : k ≠ "attachments") (hbad : ∀ c : Obj, mapIndex parent k ≠ Value.object c) :
    (validateRequest env w r world).result = Result.panic Panic.typeAssertion ∧
      (∀ msg : String, (validateRequest env w r world).result ≠ Result.error msg) ∧
      Handler env w r world =
        { next := none, w := w, world := wp, panicked := some Panic.typeAssertion } := by
  have hstep := processEntry_not_object env rp (env.jsonNull (rp.PostFormValue "operations")) wp operations parent idx entry
    pre k tail key
    hsplit hobj hatt hk hbad
  have hv := validateRequest_first_path_panics env w r world rp wp operations idx entry more
    rest hparse hops hmap hstep
  refine ⟨by rw [hv], ?_, Handler_of_panic env w r world rp wp _ hgate hv⟩
  intro msg
  rw [hv]
  simp

/-- C4, witness: the path `variables.missingBranch.file`, the third scenario;
`variables` has no key `missingBranch`. -/
theorem validateRequest_unresolvable_panics_witness :
    (validateRequest stdlib freshWriter
        (uploadRequest fileOpsText "\x7b\"0\":[\"variables.missingBranch.file\"]\x7d" [])
        freshWorld).result = Result.panic Panic.typeAssertion ∧
      (∀ msg : String, (validateRequest stdlib freshWriter
        (uploadRequest fileOpsText "\x7b\"0\":[\"variables.missingBranch.file\"]\x7d" [])
        freshWorld).result ≠ Result.error msg) ∧
      Handler stdlib freshWriter
        (uploadRequest fileOpsText "\x7b\"0\":[\"variables.missingBranch.file\"]\x7d" [])
        freshWorld =
        { next := none, w := freshWriter, world := freshWorld,
          panicked := some Panic.typeAssertion } :=
  validateRequest_unresolvable_panics stdlib freshWriter
    (uploadRequest fileOpsText "\x7b\"0\":[\"variables.missingBranch.file\"]\x7d" [])
    freshWorld
    (uploadParsed fileOpsText "\x7b\"0\":[\"variables.missingBranch.file\"]\x7d" [])
    freshWorld fileOps [("file", Value.null)] "0" "variables.missingBranch.file" ["variables"]
    "missingBranch" [] "file" [] []
    (by rfl) (by rfl) (by rfl) (by rfl) (by rfl) (by rfl) (by decide) (by decide)
    (by intro c h; cases h)

/-- C5: plain-value substitution on a path of three or more segments.  When the
path resolves to a parent container and the parsed form holds a non-empty plain
value under the field index, `validateRequest` returns no error and makes no file
operation after the parse, but the string is written at the first two segments
of the path, in place of the object found there, so that the mapped path no
longer exists.  The specification asks for the string at the full mapped path
with the rest of the tree unchanged. -/
theorem validateRequest_plain_value_deep_path (env : Env) (w : ResponseWriter) (r : Request)
    (world : World) (rp : Request) (wp : World) (operations parent : Obj)
    (idx entry e0 e1 : String) (mid : List String) (key value : String)
    (hparse : r.ParseMultipartForm env multipartMemory world = (rp, wp))
    (hops : env.jsonUnmarshalOperations (rp.PostFormValue "operations") = some operations)
    (hmap : env.jsonUnmarshalMap (rp.PostFormValue "map") = some [(idx, [entry])])
    (hsplit : stringsSplit entry = e0 :: e1 :: (mid ++ [key]))
    (hobj : descend operations (e0 :: e1 :: mid) = some parent)
    (hatt : "attachments" ∉ e0 :: e1 :: mid)
    (hplain : Values.Get rp.PostForm idx = value) (hne : value ≠ "") :
    (validateRequest env w r world).result = Result.ok () ∧
      (validateRequest env w r world).world = wp ∧
      ∃ operations1 : Obj,
        (validateRequest env w r world).r.Body = Body.json
            { Variables := mapIndex operations1 "variables"
              Query := mapIndex operations1 "query"
              Operations := operations1
              Map := [(idx, [entry])] } ∧
          getPath (Value.object operations1) [e0, e1] = some (Value.string value) ∧
          getPath (Value.object operations1) (e0 :: e1 :: (mid ++ [key])) = none := by
  have hdrop : (e0 :: e1 :: (mid ++ [key])).dropLast = e0 :: e1 :: mid := by
    have : e0 :: e1 :: (mid ++ [key]) = (e0 :: e1 :: mid) ++ [key] := by simp
    rw [this, List.dropLast_concat]
  obtain ⟨m, hm⟩ : ∃ m : Obj, mapGet operations e0 = some (Value.object m) := by
    simp only [descend] at hobj
    cases hg : mapGet operations e0 with
    | none => simp [hg] at hobj
    | some c =>
      cases c with
      | object c => exact ⟨c, rfl⟩
      | _ => simp [hg] at hobj
  have hstep : processEntry env rp (env.jsonNull (rp.PostFormValue "operations")) idx entry
      operations wp =
      (Result.ok (mapSet operations e0 (Value.object (mapSet m e1 (Value.string value)))),
        wp) := by
    unfold processEntry
    simp only [hsplit, hdrop, findFields_descend (e0 :: e1 :: mid) operations parent hatt hobj,
      hplain]
    simp [hne, assignPlain, mapIndex, hm]
  refine ⟨?_, ?_, mapSet operations e0 (Value.object (mapSet m e1 (Value.string value))),
    ?_, ?_, ?_⟩
  · simp [validateRequest, hparse, addressIsNil, hops, hmap, processMap, processPaths, hstep, jsonMarshal]
  · simp [validateRequest, hparse, addressIsNil, hops, hmap, processMap, processPaths, hstep, jsonMarshal]
  · simp [validateRequest, hparse, addressIsNil, hops, hmap, processMap, processPaths, hstep, jsonMarshal]
  · simp [getPath, mapGet_mapSet]
  · cases mid <;> simp [getPath, mapGet_mapSet]

/-- C5, witness: the path `variables.input.title` with the form value `some text`:
the string replaces the object `variables.input`. -/
theorem validateRequest_plain_value_deep_path_witness :
    (validateRequest stdlib freshWriter
        (uploadRequest inputOpsText "\x7b\"0\":[\"variables.input.title\"]\x7d"
          [("0", ["some text"])])
        freshWorld).result = Result.ok () ∧
      (validateRequest stdlib freshWriter
        (uploadRequest inputOpsText "\x7b\"0\":[\"variables.input.title\"]\x7d"
          [("0", ["some text"])])
        freshWorld).world = freshWorld ∧
      ∃ operations1 : Obj,
        (validateRequest stdlib freshWriter
          (uploadRequest inputOpsText "\x7b\"0\":[\"variables.input.title\"]\x7d"
            [("0", ["some text"])])
          freshWorld).r.Body = Body.json
            { Variables := mapIndex operations1 "variables"
              Query := mapIndex operations1 "query"
              Operations := operations1
              Map := [("0", ["variables.input.title"])] } ∧
          getPath (Value.object operations1) ["variables", "input"]
            = some (Value.string "some text") ∧
          getPath (Value.object operations1) ("variables" :: "input" :: ([] ++ ["title"]))
            = none :=
  validateRequest_plain_value_deep_path stdlib freshWriter
    (uploadRequest inputOpsText "\x7b\"0\":[\"variables.input.title\"]\x7d"
      [("0", ["some text"])])
    freshWorld
    (uploadParsed inputOpsText "\x7b\"0\":[\"variables.input.title\"]\x7d"
      [("0", ["some text"])])
    freshWorld inputOps [("title", Value.null), ("year", Value.null)] "0"
    "variables.input.title" "variables" "input" [] "title" "some text"
    (by rfl) (by rfl) (by rfl) (by rfl) (by rfl) (by decide) (by rfl) (by decide)

/-- C6, amended: malformed JSON is rejected before the rewriter does any file work.
When, after `ParseMultipartForm` has parsed the form, `operations` or `map` does
not decode, `validateRequest` returns a malformed-query error (that of
`operations` when `operations` does not decode).  It then has made no call of
`r.FormFile` and has created and written no temporary file with `ioutil.TempFile`:
the file operations are those of the parse alone.  The request is as the parse
left it, its body not replaced and its header as received, and the response writer
is untouched. -/
theorem validateRequest_malformed (env : Env) (w : ResponseWriter) (r : Request) (world : World)
    (rp : Request) (wp : World)
    (hparse : r.ParseMultipartForm env multipartMemory world = (rp, wp))
    (h : env.jsonUnmarshalOperations (rp.PostFormValue "operations") = none ∨
      env.jsonUnmarshalMap (rp.PostFormValue "map") = none) :
    ((validateRequest env w r world).result =
          Result.error "cannot unmarshal operations: malformed query" ∨
        (validateRequest env w r world).result =
          Result.error "cannot unmarshal map entries: malformed query") ∧
      (env.jsonUnmarshalOperations (rp.PostFormValue "operations") = none →
        (validateRequest env w r world).result =
          Result.error "cannot unmarshal operations: malformed query") ∧
      (validateRequest env w r world).world = wp ∧
      (validateRequest env w r world).world.formFileCalls = world.formFileCalls ∧
      (validateRequest env w r world).world.created = world.created ∧
      (validateRequest env w r world).world.written = world.written ∧
      (validateRequest env w r world).r = rp ∧
      (validateRequest env w r world).r.Header = r.Header ∧
      (validateRequest env w r world).w = w := by
  have hwp := ParseMultipartForm_keeps env r world rp wp hparse
  refine ⟨malformed_result_cases env w r world rp wp hparse h, ?_⟩
  cases ho : env.jsonUnmarshalOperations (rp.PostFormValue "operations") with
  | none => simp [validateRequest, hparse, addressIsNil, ho, hwp]
  | some operations =>
    have hm : env.jsonUnmarshalMap (rp.PostFormValue "map") = none := by
      rcases h with h | h
      · rw [ho] at h
        cases h
      · exact h
    simp [validateRequest, hparse, addressIsNil, ho, hm, hwp]

/-- C6, witness: the `operations` field `not json`, with a small file part. -/
theorem validateRequest_malformed_witness :
    ((validateRequest stdlib freshWriter
          (uploadRequest "not json" "\x7b\"0\":[\"variables.file\"]\x7d" []) freshWorld).result =
          Result.error "cannot unmarshal operations: malformed query" ∨
        (validateRequest stdlib freshWriter
          (uploadRequest "not json" "\x7b\"0\":[\"variables.file\"]\x7d" []) freshWorld).result =
          Result.error "cannot unmarshal map entries: malformed query") ∧
      (stdlib.jsonUnmarshalOperations
          ((uploadParsed "not json" "\x7b\"0\":[\"variables.file\"]\x7d" []).PostFormValue
            "operations") = none →
        (validateRequest stdlib freshWriter
          (uploadRequest "not json" "\x7b\"0\":[\"variables.file\"]\x7d" []) freshWorld).result =
          Result.error "cannot unmarshal operations: malformed query") ∧
      (validateRequest stdlib freshWriter
          (uploadRequest "not json" "\x7b\"0\":[\"variables.file\"]\x7d" []) freshWorld).world = freshWorld ∧
      (validateRequest stdlib freshWriter
          (uploadRequest "not json" "\x7b\"0\":[\"variables.file\"]\x7d" []) freshWorld).world.formFileCalls
        = freshWorld.formFileCalls ∧
      (validateRequest stdlib freshWriter
          (uploadRequest "not json" "\x7b\"0\":[\"variables.file\"]\x7d" []) freshWorld).world.created
        = freshWorld.created ∧
      (validateRequest stdlib freshWriter
          (uploadRequest "not json" "\x7b\"0\":[\"variables.file\"]\x7d" []) freshWorld).world.written
        = freshWorld.written ∧
      (validateRequest stdlib freshWriter
          (uploadRequest "not json" "\x7b\"0\":[\"variables.file\"]\x7d" []) freshWorld).r
        = uploadParsed "not json" "\x7b\"0\":[\"variables.file\"]\x7d" [] ∧
      (validateRequest stdlib freshWriter
          (uploadRequest "not json" "\x7b\"0\":[\"variables.file\"]\x7d" []) freshWorld).r.Header
        = (uploadRequest "not json" "\x7b\"0\":[\"variables.file\"]\x7d" []).Header ∧
      (validateRequest stdlib freshWriter
          (uploadRequest "not json" "\x7b\"0\":[\"variables.file\"]\x7d" []) freshWorld).w = freshWriter :=
  validateRequest_malformed stdlib freshWriter
    (uploadRequest "not json" "\x7b\"0\":[\"variables.file\"]\x7d" []) freshWorld
    (uploadParsed "not json" "\x7b\"0\":[\"variables.file\"]\x7d" []) freshWorld (by rfl)
    (Or.inl (by rfl))

/-- C6, counterexample: the `operations` field is `not json` and the file part is
one byte larger than the 64 MiB given to `ParseMultipartForm`.  The call returns
the malformed-query error, and by then the parse has stored the part in a
temporary file and has read the body of the request to its end. -/
theorem validateRequest_malformed_spill_counterexample :
    stdlib.jsonUnmarshalOperations "not json" = none ∧
      (validateRequest stdlib freshWriter bigRequest freshWorld).result =
        Result.error "cannot unmarshal operations: malformed query" ∧
      (validateRequest stdlib freshWriter bigRequest freshWorld).world.spilled =
        ["/tmp/multipart-0"] ∧
      freshWorld.spilled = [] ∧
      (validateRequest stdlib freshWriter bigRequest freshWorld).r.Body = Body.received [] ∧
      bigRequest.Body ≠ Body.received [] :=
  ⟨rfl, rfl, rfl, rfl, rfl, by intro h; cases h⟩

/-- C7: an absent required field.  The decoder rejects the empty text.  When the
form field `map` is absent from the parsed form, `validateRequest` fails with one
of the two malformed-query errors and not with `missing map field parameter`; when
`operations` is absent it fails with the malformed-query error of `operations`
and not with `missing operations field parameter`.  The specification asks for
the missing-field errors. -/
theorem validateRequest_absent_field_is_malformed (env : Env) (w : ResponseWriter)
    (r : Request) (world : World) (rp : Request) (wp : World)
    (hparse : r.ParseMultipartForm env multipartMemory world = (rp, wp))
    (hmapEmpty : env.jsonUnmarshalMap "" = none)
    (hopsEmpty : env.jsonUnmarshalOperations "" = none) :
    ((∀ vs : List String, ("map", vs) ∉ rp.PostForm) →
        ((validateRequest env w r world).result =
            Result.error "cannot unmarshal operations: malformed query" ∨
          (validateRequest env w r world).result =
            Result.error "cannot unmarshal map entries: malformed query") ∧
        (validateRequest env w r world).result ≠ Result.error "missing map field parameter") ∧
      ((∀ vs : List String, ("operations", vs) ∉ rp.PostForm) →
        (validateRequest env w r world).result =
            Result.error "cannot unmarshal operations: malformed query" ∧
        (validateRequest env w r world).result ≠
            Result.error "missing operations field parameter") := by
  constructor
  · intro habsent
    have hm : rp.PostFormValue "map" = "" := Values_Get_absent rp.PostForm "map" habsent
    have hor := (malformed_result_cases env w r world rp wp hparse
      (Or.inr (by rw [hm]; exact hmapEmpty)))
    refine ⟨hor, ?_⟩
    rcases hor with h | h <;> rw [h] <;> simp
  · intro habsent
    have ho : rp.PostFormValue "operations" = "" :=
      Values_Get_absent rp.PostForm "operations" habsent
    have h : (validateRequest env w r world).result =
        Result.error "cannot unmarshal operations: malformed query" := by
      simp [validateRequest, hparse, addressIsNil, ho, hopsEmpty]
    refine ⟨h, ?_⟩
    rw [h]
    simp

/-- C7, witness: a form with a valid `operations` field and no `map` field. -/
theorem validateRequest_absent_field_is_malformed_witness :
    ((validateRequest stdlib freshWriter
          (formRequest [("operations", [fileOpsText])]) freshWorld).result =
            Result.error "cannot unmarshal operations: malformed query" ∨
        (validateRequest stdlib freshWriter
          (formRequest [("operations", [fileOpsText])]) freshWorld).result =
            Result.error "cannot unmarshal map entries: malformed query") ∧
      (validateRequest stdlib freshWriter
        (formRequest [("operations", [fileOpsText])]) freshWorld).result ≠
          Result.error "missing map field parameter" :=
  (validateRequest_absent_field_is_malformed stdlib freshWriter
    (formRequest [("operations", [fileOpsText])]) freshWorld
    (formParsed [("operations", [fileOpsText])]) freshWorld (by rfl) (by rfl) (by rfl)).1
    (by intro vs h; simp [formParsed] at h)

/-- C8: the gate decision of `Handler`.  If the method is not POST, or the
Content-Type header is empty, or its media type is not `multipart/form-data`, the
handler calls `next` with the writer and the request it received and does nothing
else.  Otherwise it runs `validateRequest`; it calls `next`, with the writer and
request that `validateRequest` leaves, when the result is no error, and only then;
and on an error it calls `http.Error` with the message of the error and status 400
and does not call `next`. -/
theorem Handler_gate (env : Env) (w : ResponseWriter) (r : Request) (world : World) :
    ((r.Method ≠ "POST" ∨ Values.Get r.Header "Content-Type" = "" ∨
        env.parseMediaType (Values.Get r.Header "Content-Type") ≠ "multipart/form-data") →
      Handler env w r world = { next := some (w, r), w := w, world := world, panicked := none }) ∧
    (¬ (r.Method ≠ "POST" ∨ Values.Get r.Header "Content-Type" = "" ∨
        env.parseMediaType (Values.Get r.Header "Content-Type") ≠ "multipart/form-data") →
      ((validateRequest env w r world).result = Result.ok () →
        (Handler env w r world).next =
          some ((validateRequest env w r world).w, (validateRequest env w r world).r)) ∧
      (∀ msg : String, (validateRequest env w r world).result = Result.error msg →
        (Handler env w r world).next = none ∧
          (Handler env w r world).w.errorReply = some (msg, 400)) ∧
      ((Handler env w r world).next ≠ none →
        (validateRequest env w r world).result = Result.ok ()) ∧
      (Handler env w r world).world = (validateRequest env w r world).world) := by
  constructor
  · intro h
    have hs : isMiddlewareSupported env r = false := by
      unfold isMiddlewareSupported
      rcases h with h | h | h
      · simp [h]
      · simp [h]
      · simp [h]
    simp [Handler, hs]
  · intro h
    have hs : isMiddlewareSupported env r = true := by
      unfold isMiddlewareSupported
      simp only [not_or, not_not, ne_eq] at h
      simp [h.1, h.2.1, h.2.2]
    refine ⟨?_, ?_, ?_, ?_⟩
    · intro hv
      simp [Handler, hs, hv]
    · intro msg hv
      simp [Handler, hs, hv]
    · intro hn
      cases hv : (validateRequest env w r world).result with
      | ok u => rfl
      | error msg => simp [Handler, hs, hv] at hn
      | panic p => simp [Handler, hs, hv] at hn
    · cases hv : (validateRequest env w r world).result <;> simp [Handler, hs, hv]

/-- C8, witness: a GET request goes to `next` as it came. -/
theorem Handler_gate_witness :
    Handler stdlib freshWriter
        getRequest freshWorld =
      { next := some (freshWriter,
          getRequest)
        w := freshWriter, world := freshWorld, panicked := none } :=
  (Handler_gate stdlib freshWriter
    getRequest freshWorld).1 (Or.inl (by decide))

/-- C9, amended: the shape of the rewritten request.  Whenever `validateRequest`
returns no error, both documents of the parsed form decoded, the loop ended with
a tree `operations1`, the body of the request is the JSON text of the
`graphqlParams` whose `operations` is `operations1`, whose `variables` and `query`
are `operations1["variables"]` and `operations1["query"]` and whose `map` is the
decoded map, the Content-Type header of the response writer is
`application/json`, and the header of the request is as it was received. -/
theorem validateRequest_rewritten_shape (env : Env) (w : ResponseWriter) (r : Request)
    (world : World) (rp : Request) (wp : World)
    (hparse : r.ParseMultipartForm env multipartMemory world = (rp, wp))
    (h : (validateRequest env w r world).result = Result.ok ()) :
    ∃ (operations operations1 : Obj) (mapEntries : List (String × List String)),
      env.jsonUnmarshalOperations (rp.PostFormValue "operations") = some operations ∧
        env.jsonUnmarshalMap (rp.PostFormValue "map") = some mapEntries ∧
        (processMap env rp (env.jsonNull (rp.PostFormValue "operations")) mapEntries operations
          wp).1 = Result.ok operations1 ∧
        (validateRequest env w r world).r.Body = Body.json
          { Variables := mapIndex operations1 "variables"
            Query := mapIndex operations1 "query"
            Operations := operations1
            Map := mapEntries } ∧
        Values.Get (validateRequest env w r world).w.Header "Content-Type" = "application/json" ∧
        (validateRequest env w r world).r.Header = r.Header := by
  cases ho : env.jsonUnmarshalOperations (rp.PostFormValue "operations") with
  | none => simp [validateRequest, hparse, addressIsNil, ho] at h
  | some operations =>
    cases hm : env.jsonUnmarshalMap (rp.PostFormValue "map") with
    | none => simp [validateRequest, hparse, addressIsNil, ho, hm] at h
    | some mapEntries =>
      cases hp : processMap env rp (env.jsonNull (rp.PostFormValue "operations")) mapEntries
        operations wp with
      | mk res world1 =>
        cases res with
        | error e => simp [validateRequest, hparse, addressIsNil, ho, hm, hp] at h
        | panic p => simp [validateRequest, hparse, addressIsNil, ho, hm, hp] at h
        | ok operations1 =>
          refine ⟨operations, operations1, mapEntries, rfl, rfl, by rw [hp], ?_, ?_, ?_⟩
          · simp [validateRequest, hparse, addressIsNil, ho, hm, hp, jsonMarshal]
          · simp [validateRequest, hparse, addressIsNil, ho, hm, hp, jsonMarshal, Values_Get_Set]
          · simp [validateRequest, hparse, addressIsNil, ho, hm, hp, jsonMarshal,
              (ParseMultipartForm_keeps env r world rp wp hparse).1]

/-- C9, witness: the first scenario. -/
theorem validateRequest_rewritten_shape_witness :
    ∃ (operations operations1 : Obj) (mapEntries : List (String × List String)),
      stdlib.jsonUnmarshalOperations
          ((uploadParsed fileOpsText "\x7b\"0\":[\"variables.file\"]\x7d" []).PostFormValue
            "operations") = some operations ∧
        stdlib.jsonUnmarshalMap
          ((uploadParsed fileOpsText "\x7b\"0\":[\"variables.file\"]\x7d" []).PostFormValue
            "map") = some mapEntries ∧
        (processMap stdlib (uploadParsed fileOpsText "\x7b\"0\":[\"variables.file\"]\x7d" [])
          (stdlib.jsonNull
            ((uploadParsed fileOpsText "\x7b\"0\":[\"variables.file\"]\x7d" []).PostFormValue
              "operations"))
          mapEntries operations freshWorld).1 = Result.ok operations1 ∧
        (validateRequest stdlib freshWriter
          (uploadRequest fileOpsText "\x7b\"0\":[\"variables.file\"]\x7d" [])
          freshWorld).r.Body = Body.json
          { Variables := mapIndex operations1 "variables"
            Query := mapIndex operations1 "query"
            Operations := operations1
            Map := mapEntries } ∧
        Values.Get (validateRequest stdlib freshWriter
          (uploadRequest fileOpsText "\x7b\"0\":[\"variables.file\"]\x7d" [])
          freshWorld).w.Header "Content-Type" = "application/json" ∧
        (validateRequest stdlib freshWriter
          (uploadRequest fileOpsText "\x7b\"0\":[\"variables.file\"]\x7d" [])
          freshWorld).r.Header
          = (uploadRequest fileOpsText "\x7b\"0\":[\"variables.file\"]\x7d" []).Header :=
  validateRequest_rewritten_shape stdlib freshWriter
    (uploadRequest fileOpsText "\x7b\"0\":[\"variables.file\"]\x7d" []) freshWorld
    (uploadParsed fileOpsText "\x7b\"0\":[\"variables.file\"]\x7d" []) freshWorld (by rfl) (by rfl)

/-- C9, counterexample: in the first scenario `validateRequest` returns no error and
the Content-Type header of the request is still the multipart one, not
`application/json`. -/
theorem validateRequest_request_header_counterexample :
    (validateRequest stdlib freshWriter
        (uploadRequest fileOpsText "\x7b\"0\":[\"variables.file\"]\x7d" [])
        freshWorld).result = Result.ok () ∧
      Values.Get (validateRequest stdlib freshWriter
        (uploadRequest fileOpsText "\x7b\"0\":[\"variables.file\"]\x7d" [])
        freshWorld).r.Header "Content-Type" = "multipart/form-data; boundary=xyz" ∧
      Values.Get (validateRequest stdlib freshWriter
        (uploadRequest fileOpsText "\x7b\"0\":[\"variables.file\"]\x7d" [])
        freshWorld).r.Header "Content-Type" ≠ "application/json" :=
  ⟨rfl, rfl, by decide⟩

/-- C10, amended: hydration of the Upload scalar.  For every map input
`UnmarshalGraphQL` returns no error, and when the `filename`, `mimetype` and
`filepath` entries of the map are strings it leaves the Upload with these three
strings; for every input that is not a map it returns the type error and leaves
the Upload as it was. -/
theorem UnmarshalGraphQL_shapes (u : Upload) (input : Value) :
    (∀ m : Obj, input = Value.object m →
      (u.UnmarshalGraphQL input).2 = none ∧
        ∀ a b c : String, mapGet m "filename" = some (Value.string a) →
          mapGet m "mimetype" = some (Value.string b) →
          mapGet m "filepath" = some (Value.string c) →
          (u.UnmarshalGraphQL input).1 = { Filename := a, MimeType := b, Filepath := c }) ∧
      ((∀ m : Obj, input ≠ Value.object m) →
        u.UnmarshalGraphQL input = (u, some "Cannot unmarshal received type as a Upload type")) := by
  constructor
  · intro m hm
    subst hm
    refine ⟨by simp [Upload.UnmarshalGraphQL, jsonMarshalInput], ?_⟩
    intro a b c ha hb hc
    simp [Upload.UnmarshalGraphQL, jsonMarshalInput, jsonUnmarshalUpload_strings m u a b c ha hb hc]
  · intro h
    cases input with
    | object m => exact absurd rfl (h m)
    | _ => rfl

/-- C10, witness: a map with the three string entries and a further key `FileName`
that matches the field `Filename` without being its name. -/
theorem UnmarshalGraphQL_shapes_witness :
    ((⟨"", "", ""⟩ : Upload).UnmarshalGraphQL (Value.object
        [("filepath", Value.string "/tmp/graphqlupload-271828.txt"),
         ("FileName", Value.string "other.txt"),
         ("mimetype", Value.string "text/plain; charset=utf-8"),
         ("filename", Value.string "Hello.TXT")])).1 = helloUpload :=
  ((UnmarshalGraphQL_shapes ⟨"", "", ""⟩ (Value.object
        [("filepath", Value.string "/tmp/graphqlupload-271828.txt"),
         ("FileName", Value.string "other.txt"),
         ("mimetype", Value.string "text/plain; charset=utf-8"),
         ("filename", Value.string "Hello.TXT")])).1 _ rfl).2
    "Hello.TXT" "text/plain; charset=utf-8" "/tmp/graphqlupload-271828.txt" (by rfl) (by rfl)
    (by rfl)

/-- C10, counterexample: a map whose `filename` entry is a number, and the empty
map, do not have the shape of an Upload, and `UnmarshalGraphQL` returns no error
for them. -/
theorem UnmarshalGraphQL_number_counterexample :
    ((⟨"", "", ""⟩ : Upload).UnmarshalGraphQL (Value.object [("filename", Value.number 0)])).2
        = none ∧
      ((⟨"", "", ""⟩ : Upload).UnmarshalGraphQL (Value.object [])).2 = none :=
  ⟨rfl, rfl⟩

end GraphqlUpload
